import Mathlib

set_option maxRecDepth 100000

/-!
Shallow embedding of the git-backed virtual filesystem core of
`src/python/pants/scm/git.py` (the `Git` class: object-store pipe,
tree decoder, tree cache, `_realpath`, and the `exists`/`isfile`/
`isdir`/`open` facade).

Python 2 byte strings are modelled as `List Char` (one `Char` per byte);
`os.path.sep` is taken to be the forward slash, matching the Linux
platform the code targets.  Python exceptions are modelled with an
explicit error sum `GErr` and `Except`; the mutable tree cache
(`self._trees`) and the requests written to the `git cat-file --batch`
pipe are threaded explicitly: stateful operations return
`result, final cache, list of pipe requests made`.
-/

namespace Pants

/-- A Python 2 byte string: one `Char` per byte. -/
abbrev Str := List Char

/-- Convenience for writing concrete byte strings. -/
def str (s : String) : Str := s.toList

/-- Python `s.split(sep)` for a one-character separator: keeps empty pieces,
`"".split(sep) == ['']`. -/
def pySplit (sep : Char) : Str → List Str
  | [] => [[]]
  | c :: cs =>
    if c = sep then [] :: pySplit sep cs
    else
      match pySplit sep cs with
      | [] => [[c]]
      | t :: ts => (c :: t) :: ts

/-- `sep.join(xs)` for a one-character separator. -/
def joinS (sep : Char) : List Str → Str
  | [] => []
  | [x] => x
  | x :: y :: ys => x ++ sep :: joinS sep (y :: ys)

/-- Python `s.startswith(p)`. -/
def startsW (p s : Str) : Bool := s.take p.length = p

/-- Python `s.endswith('/')` (a single-character suffix test). -/
def endsSlash (s : Str) : Bool := s.getLast? = some '/'

/-- Python 2 `os.path.join(a, b)` (posixpath, two arguments). -/
def pyJoin (a b : Str) : Str :=
  if startsW ['/'] b then b
  else if a = [] ∨ endsSlash a then a ++ b
  else a ++ '/' :: b

/-- One step of the `new_comps` accumulation inside `posixpath.normpath`. -/
def normStep (initialSlashes : Nat) (acc : List Str) (comp : Str) : List Str :=
  if comp = [] ∨ comp = ['.'] then acc
  else if comp ≠ str ".." ∨ (initialSlashes = 0 ∧ acc = []) ∨
          (acc ≠ [] ∧ acc.getLast? = some (str "..")) then acc ++ [comp]
  else if acc ≠ [] then acc.dropLast
  else acc

/-- Python 2 `posixpath.normpath`. -/
def pyNormpath (p : Str) : Str :=
  if p = [] then ['.']
  else
    let initialSlashes : Nat :=
      if startsW ['/'] p then
        (if startsW (str "//") p ∧ ¬ startsW (str "///") p then 2 else 1)
      else 0
    let comps := pySplit '/' p
    let newComps := comps.foldl (normStep initialSlashes) []
    let path := List.replicate initialSlashes '/' ++ joinS '/' newComps
    if path = [] then ['.'] else path

/-- Lowercase hex digit for a nibble. -/
def hexDigit (n : Nat) : Char :=
  if n < 10 then Char.ofNat (48 + n) else Char.ofNat (87 + n)

/-- Python 2 `s.encode('hex')`: two lowercase hex digits per byte. -/
def hexEncode (s : Str) : Str :=
  (s.map (fun c => [hexDigit (c.toNat / 16), hexDigit (c.toNat % 16)])).flatten

/-! ## Tree entries and the tree-object decoder (`_read_tree`, parsing part) -/

/-- The `Symlink` / `Dir` / `File` value classes: each holds a name and a
hex-encoded sha. -/
inductive Entry where
  | symlink (name sha : Str)
  | dir (name sha : Str)
  | file (name sha : Str)
deriving DecidableEq, Repr

/-- A decoded tree: insertion-ordered mapping from entry name to entry,
modelling the Python dict built by `_read_tree`. -/
abbrev Tree := List (Str × Entry)

/-- Python dict lookup `tree[component]` (first — and only — binding of a key). -/
def treeGet : Tree → Str → Option Entry
  | [], _ => none
  | (k, v) :: rest, n => if k = n then some v else treeGet rest n

/-- Python dict assignment `tree[name] = obj`: replace in place, else append. -/
def treePut : Tree → Str → Entry → Tree
  | [], n, v => [(n, v)]
  | (k, w) :: rest, n, v =>
    if k = n then (n, v) :: rest else (k, w) :: treePut rest n v

/-- `tree[name] = Symlink/Dir/File(name, sha)` dispatched on the mode,
exactly as in `_read_tree`. -/
def classify (mode name sha : Str) : Entry :=
  if mode = str "120000" then .symlink name sha
  else if mode = str "40000" then .dir name sha
  else .file name sha

/-- Errors: the exception classes of `Git` plus the Python built-in
exceptions the code can raise (`assert`, bad indexing/unpacking,
`None.endswith`, failed `open`). `missingFile`'s fields are `Option`
because `_read_object_from_repo` raises `MissingFileException(rev, relpath)`
with its *arguments*, which default to `None` for a sha-form request. -/
inductive GErr where
  | missingFile (rev relpath : Option Str)
  | isDir (rev relpath : Str)
  | notADir (rev relpath : Str)
  | symlinkLoop (rev relpath : Str)
  | badMode (rev relpath mode : Str)
  | gitDied
  | assertFailed
  | valueError
  | indexError
  | attributeError
  | ioError (path : Str)
deriving DecidableEq, Repr

deriving instance DecidableEq for Except

/-- Cursor state of the byte scan in `_read_tree`: scanning the mode
(up to a space), the name (up to a NUL), or slicing the 20 raw sha bytes. -/
inductive ParsePhase where
  | inMode (acc : Str)
  | inName (mode : Str) (acc : Str)
  | inSha (mode name : Str) (remaining : Nat) (acc : Str)
deriving DecidableEq, Repr

/-- The scanning loop of `_read_tree` over the raw tree bytes.
Running off the end while scanning a mode or a name is the Python
`IndexError` (fatal on malformed data); running out of bytes inside the
20-byte sha slice silently yields a short slice, as Python slicing does. -/
def decodeGo (t : Tree) : ParsePhase → Str → Except GErr Tree
  | .inMode acc, [] => if acc = [] then .ok t else .error .indexError
  | .inMode acc, c :: cs =>
    if c = ' ' then decodeGo t (.inName acc []) cs
    else decodeGo t (.inMode (acc ++ [c])) cs
  | .inName _ _, [] => .error .indexError
  | .inName m acc, c :: cs =>
    if c = Char.ofNat 0 then decodeGo t (.inSha m acc 20 []) cs
    else decodeGo t (.inName m (acc ++ [c])) cs
  | .inSha m n _ acc, [] => .ok (treePut t n (classify m n (hexEncode acc)))
  | .inSha m n rem acc, c :: cs =>
    if rem = 1 then
      decodeGo (treePut t n (classify m n (hexEncode (acc ++ [c])))) (.inMode []) cs
    else decodeGo t (.inSha m n (rem - 1) (acc ++ [c])) cs

/-- Decode raw tree-object bytes into a `Tree` (the parsing loop of
`_read_tree`). -/
def decodeTree (data : Str) : Except GErr Tree := decodeGo [] (.inMode []) data

/-- One well-formed record of the tree-object binary format:
`mode SP name NUL sha(20 raw bytes)`. -/
structure TreeRecord where
  mode : Str
  name : Str
  sha : Str
deriving DecidableEq, Repr

/-- Serialize one record of the tree-object format. -/
def encodeRecord (r : TreeRecord) : Str :=
  r.mode ++ ' ' :: r.name ++ Char.ofNat 0 :: r.sha

/-- Serialize a concatenation of records (a whole tree object). -/
def encodeRecords (rs : List TreeRecord) : Str := (rs.map encodeRecord).flatten

/-- Well-formedness of a record list per the spec's data model: the mode
contains no space, the name no NUL, the raw sha is exactly 20 bytes, and
entry names are unique within the tree. -/
def RecordsWF (rs : List TreeRecord) : Prop :=
  (∀ r ∈ rs, (' ' ∉ r.mode) ∧ (Char.ofNat 0 ∉ r.name) ∧ r.sha.length = 20) ∧
  (rs.map TreeRecord.name).Nodup

instance (rs : List TreeRecord) : Decidable (RecordsWF rs) := by
  unfold RecordsWF; infer_instance

/-! ## Object store and the tree cache -/

/-- A request line written to the `git cat-file --batch` pipe:
`"rev:path"` or a bare hex sha. -/
inductive Request where
  | byRevPath (rev relpath : Str)
  | bySha (sha : Str)
deriving DecidableEq, Repr

/-- Whether a request is the sha form. -/
def Request.isSha : Request → Bool
  | .bySha _ => true
  | .byRevPath _ _ => false

/-- The `rev` argument `_read_object_from_repo` was called with. -/
def Request.revArg : Request → Option Str
  | .byRevPath r _ => some r
  | .bySha _ => none

/-- The `relpath` argument `_read_object_from_repo` was called with. -/
def Request.relpathArg : Request → Option Str
  | .byRevPath _ p => some p
  | .bySha _ => none

/-- The object store behind the pipe: what `git cat-file --batch` knows.
`none` means the store reports the object missing. A present object is
`(object_type, raw bytes)`. -/
structure Store where
  byPath : Str → Str → Option (Str × Str)
  bySha : Str → Option (Str × Str)

/-- Store lookup for either request form. -/
def Store.fetch (s : Store) : Request → Option (Str × Str)
  | .byRevPath r p => s.byPath r p
  | .bySha h => s.bySha h

/-- `_read_object_from_repo` at the object level (the wire exchange is
modelled separately below): a missing object raises
`MissingFileException(rev, relpath)` with the call's arguments, which are
`None` for a sha-form request. -/
def readObject (s : Store) (req : Request) : Except GErr (Str × Str) :=
  match s.fetch req with
  | none => .error (.missingFile req.revArg req.relpathArg)
  | some r => .ok r

/-- The tree cache `self._trees`, keyed by `(rev, directory path)`. -/
abbrev Cache := List ((Str × Str) × Tree)

/-- `self._trees[rev].get(path)`. -/
def cacheGet : Cache → Str → Str → Option Tree
  | [], _, _ => none
  | (k, t) :: rest, rev, path =>
    if k = (rev, path) then some t else cacheGet rest rev path

/-- `self._trees[rev][path] = tree`. -/
def cachePut : Cache → Str → Str → Tree → Cache
  | [], rev, path, t => [((rev, path), t)]
  | (k, u) :: rest, rev, path, t =>
    if k = (rev, path) then ((rev, path), t) :: rest
    else (k, u) :: cachePut rest rev path t

instance : DecidableEq Tree := inferInstance

instance : DecidableEq Cache := inferInstance

instance : DecidableEq (Except GErr Tree) := inferInstance

instance : DecidableEq (Except GErr (Option Str)) := inferInstance

instance : DecidableEq (Except GErr (Str × Str)) := inferInstance

instance : DecidableEq (Except GErr Bool) := inferInstance

instance : DecidableEq (List Request) := inferInstance

/-- The fetch-decode-store path of `_read_tree` (cache miss, or a cached
empty dict, which is falsy in Python). -/
def readTreeFetch (s : Store) (c : Cache) (rev path : Str) :
    Except GErr Tree × Cache × List Request :=
  match readObject s (.byRevPath rev path) with
  | .error e => (.error e, c, [.byRevPath rev path])
  | .ok (objType, data) =>
    if objType ≠ str "tree" then (.error .assertFailed, c, [.byRevPath rev path])
    else
      match decodeTree data with
      | .error e => (.error e, c, [.byRevPath rev path])
      | .ok t => (.ok t, cachePut c rev path t, [.byRevPath rev path])

/-- `_read_tree(rev, path)`: consult the cache (`if tree:` — an empty
cached dict is falsy and is fetched again), else fetch via the pipe,
assert the object is a tree, decode, and store. -/
def readTree (s : Store) (c : Cache) (rev path : Str) :
    Except GErr Tree × Cache × List Request :=
  match cacheGet c rev path with
  | some t => if t.isEmpty then readTreeFetch s c rev path else (.ok t, c, [])
  | none => readTreeFetch s c rev path

/-! ## The path resolver `_realpath` -/

/-- Outcome of walking components until the queue is exhausted, a terminal
condition fires, or a symlink entry is found. `final (.ok none)` is the
loop running off the end of the function body: Python returns `None`. -/
inductive WalkRes where
  | final (r : Except GErr (Option Str))
  | symlinkHit (parentPath sha : Str) (rest : List Str)
deriving DecidableEq, Repr

/-- The component-popping loop of `_realpath`, up to (but not including)
symlink expansion: pop a component (skipping empty ones), read the parent
tree, look the component up, and classify. Faithful to the source, the
`components`-remaining tests are Python truthiness (`rest ≠ []`). -/
def walk (s : Store) (rev relpath : Str) :
    List Str → Str → Cache → WalkRes × Cache × List Request
  | [], _, c => (.final (.ok none), c, [])
  | comp :: rest, pathSoFar, c =>
    if comp = [] then walk s rev relpath rest pathSoFar c
    else
      match readTree s c rev pathSoFar with
      | (.error e, c', l) => (.final (.error e), c', l)
      | (.ok parentTree, c', l) =>
        let parentPath := pathSoFar
        let ps := (if pathSoFar ≠ [] then pathSoFar ++ ['/'] else []) ++ comp
        match treeGet parentTree comp with
        | none => (.final (.error (.missingFile (some rev) (some relpath))), c', l)
        | some (.file _ _) =>
          if rest = [] then (.final (.ok (some ps)), c', l)
          else (.final (.error (.notADir rev relpath)), c', l)
        | some (.dir _ _) =>
          if rest = [] then (.final (.ok (some (ps ++ ['/']))), c', l)
          else
            let (r, c'', l') := walk s rev relpath rest ps c'
            (r, c'', l ++ l')
        | some (.symlink _ sha) => (.symlinkHit parentPath sha rest, c', l)

/-- Symlink expansion of `_realpath`. `hopsLeft` is `40 - symlinks`: the
source increments a counter and raises `SymlinkLoopException` when it
exceeds 40, before reading the link's blob. A non-escape target is
normalized against the link's parent, spliced onto the front of the
queue, and the walk restarts from the root (`path_so_far = ''`). -/
def resolveLoop (s : Store) (rev relpath : Str) :
    Nat → List Str → Str → Cache →
    Except GErr (Option Str) × Cache × List Request
  | 0, comps, pathSoFar, c =>
    match walk s rev relpath comps pathSoFar c with
    | (.final r, c', l) => (r, c', l)
    | (.symlinkHit _ _ _, c', l) => (.error (.symlinkLoop rev relpath), c', l)
  | hops + 1, comps, pathSoFar, c =>
    match walk s rev relpath comps pathSoFar c with
    | (.final r, c', l) => (r, c', l)
    | (.symlinkHit parentPath sha _rest, c', l) =>
      match readObject s (.bySha sha) with
      | .error e => (.error e, c', l ++ [.bySha sha])
      | .ok (objType, pathData) =>
        if objType ≠ str "blob" then (.error .assertFailed, c', l ++ [.bySha sha])
        else
          let linkTo := pyNormpath (pyJoin parentPath pathData)
          if startsW (str "../") linkTo then (.ok (some linkTo), c', l ++ [.bySha sha])
          else
            match linkTo with
            | [] => (.error .indexError, c', l ++ [.bySha sha])
            | c0 :: _ =>
              if c0 = '/' then (.ok (some linkTo), c', l ++ [.bySha sha])
              else
                let (r, c'', l') :=
                  resolveLoop s rev relpath hops (pySplit '/' linkTo ++ _rest) [] c'
                (r, c'', l ++ [.bySha sha] ++ l')

/-- `_realpath(rev, relpath)`: `.` and the empty path are the root `/`;
otherwise split on the path separator and run the walk with the 40-hop
symlink budget. `.ok none` is Python's implicit `return None` when the
loop exhausts the queue without hitting a terminal condition. -/
def realpath (s : Store) (c : Cache) (rev relpath : Str) :
    Except GErr (Option Str) × Cache × List Request :=
  if relpath = str "." ∨ relpath = [] then (.ok (some ['/']), c, [])
  else resolveLoop s rev relpath 40 (pySplit '/' relpath) [] c

/-! ## The facade: `exists`, `isfile`, `isdir`, `open` -/

/-- `exists(rev, relpath)`: `_realpath` wrapped in
`except MissingFileException/NotADirException: return False`. -/
def existsB (s : Store) (c : Cache) (rev relpath : Str) :
    Except GErr Bool × Cache :=
  match realpath s c rev relpath with
  | (.ok _, c', _) => (.ok true, c')
  | (.error (.missingFile _ _), c', _) => (.ok false, c')
  | (.error (.notADir _ _), c', _) => (.ok false, c')
  | (.error e, c', _) => (.error e, c')

/-- `isfile(rev, relpath)`: `not path.endswith('/')` under the same
exception handling; `path` being `None` raises `AttributeError`. -/
def isfileB (s : Store) (c : Cache) (rev relpath : Str) :
    Except GErr Bool × Cache :=
  match realpath s c rev relpath with
  | (.ok (some p), c', _) => (.ok (!endsSlash p), c')
  | (.ok none, c', _) => (.error .attributeError, c')
  | (.error (.missingFile _ _), c', _) => (.ok false, c')
  | (.error (.notADir _ _), c', _) => (.ok false, c')
  | (.error e, c', _) => (.error e, c')

/-- `isdir(rev, relpath)`: `path.endswith('/')` under the same exception
handling. -/
def isdirB (s : Store) (c : Cache) (rev relpath : Str) :
    Except GErr Bool × Cache :=
  match realpath s c rev relpath with
  | (.ok (some p), c', _) => (.ok (endsSlash p), c')
  | (.ok none, c', _) => (.error .attributeError, c')
  | (.error (.missingFile _ _), c', _) => (.ok false, c')
  | (.error (.notADir _ _), c', _) => (.ok false, c')
  | (.error e, c', _) => (.error e, c')

/-- A value yielded by the `open` generator: a real-filesystem file object
or a `StringIO` over blob bytes. -/
inductive Handle where
  | fsFile (path data : Str)
  | stringBuf (data : Str)
deriving DecidableEq, Repr

/-- Full run of the `open` generator body: the values it yields in order,
the exception (if any) its execution raises, and the threaded state. -/
structure OpenTrace where
  yields : List Handle
  error : Option GErr
  cache : Cache
  log : List Request
deriving DecidableEq, Repr

/-- The tail of `open` past the escape check: fetch `rev:path` from the
store, raise `IsDirException` on a tree, assert blob, yield a `StringIO`.
The source reaches this code even after yielding a filesystem file for an
escape path, because the escape branch does not return. -/
def openFetch (s : Store) (rev relpath p : Str) (ys : List Handle)
    (c : Cache) (l : List Request) : OpenTrace :=
  match readObject s (.byRevPath rev p) with
  | .error e => ⟨ys, some e, c, l ++ [.byRevPath rev p]⟩
  | .ok (objType, data) =>
    if objType = str "tree" then
      ⟨ys, some (.isDir rev relpath), c, l ++ [.byRevPath rev p]⟩
    else if objType ≠ str "blob" then
      ⟨ys, some .assertFailed, c, l ++ [.byRevPath rev p]⟩
    else ⟨ys ++ [.stringBuf data], none, c, l ++ [.byRevPath rev p]⟩

/-- `open(rev, relpath, mode)` as a generator trace. `fs` is the real
filesystem (`open(path, mode)` on an absent path raises `IOError`). -/
def openG (s : Store) (fs : Str → Option Str) (c : Cache)
    (rev relpath mode : Str) : OpenTrace :=
  if mode ≠ str "rb" then ⟨[], some (.badMode rev relpath mode), c, []⟩
  else
    match realpath s c rev relpath with
    | (.error e, c', l) => ⟨[], some e, c', l⟩
    | (.ok none, c', l) => ⟨[], some .attributeError, c', l⟩
    | (.ok (some p), c', l) =>
      if endsSlash p then ⟨[], some (.isDir rev relpath), c', l⟩
      else if startsW (str "../") p then
        match fs p with
        | none => ⟨[], some (.ioError p), c', l⟩
        | some data => openFetch s rev relpath p [.fsFile p data] c' l
      else
        match p with
        | [] => ⟨[], some .indexError, c', l⟩
        | c0 :: _ =>
          if c0 = '/' then
            match fs p with
            | none => ⟨[], some (.ioError p), c', l⟩
            | some data => openFetch s rev relpath p [.fsFile p data] c' l
          else openFetch s rev relpath p [] c' l

/-! ## The wire protocol of `_read_object_from_repo` -/

/-- Python whitespace for `str.rstrip()`. -/
def isPySpace (c : Char) : Bool :=
  c = ' ' ∨ c = '\n' ∨ c = '\t' ∨ c = '\r' ∨ c = Char.ofNat 11 ∨ c = Char.ofNat 12

/-- Python `s.rstrip()`. -/
def pyRstrip (s : Str) : Str := (s.reverse.dropWhile isPySpace).reverse

/-- Python `s.rsplit(' ', 2)`. -/
def pyRsplit2 (s : Str) : List Str :=
  let parts := pySplit ' ' s
  if parts.length ≤ 3 then parts
  else joinS ' ' (parts.take (parts.length - 2)) :: parts.drop (parts.length - 2)

/-- Python `int(s)` restricted to plain decimal digit strings. -/
def parseLen (s : Str) : Option Nat :=
  if s ≠ [] ∧ s.all (fun c => c.isDigit) then
    some (s.foldl (fun n c => 10 * n + (c.toNat - 48)) 0)
  else none

/-- The request line `_read_object_from_repo` writes to the pipe. -/
def specLine : Request → Str
  | .bySha h => h ++ ['\n']
  | .byRevPath rev relpath => rev ++ ':' :: relpath ++ ['\n']

/-- Response handling of `_read_object_from_repo` once a header line has
arrived, with `body` the bytes following on the pipe: rstrip, rsplit into
at most three fields; a two-field header asserts `missing` and raises
`MissingFileException(rev, relpath)` with the call's arguments; otherwise
read `length` bytes, a trailing newline, and check the length. -/
def processResponse (req : Request) (header body : Str) :
    Except GErr (Str × Str) :=
  match pyRsplit2 (pyRstrip header) with
  | [_, m] =>
    if m = str "missing" then .error (.missingFile req.revArg req.relpathArg)
    else .error .assertFailed
  | [_, objType, objLen] =>
    match parseLen objLen with
    | none => .error .valueError
    | some n =>
      let blob := body.take n
      if (body.drop n).take 1 ≠ ['\n'] then .error .assertFailed
      else if blob.length ≠ n then .error .assertFailed
      else .ok (objType, blob)
  | _ => .error .valueError

/-! ## Derived notions used in the statements below -/

/-- Number of sha-form requests (symlink-blob fetches) in a request log:
each symlink hop performs exactly one. -/
def shaCount (l : List Request) : Nat := (l.filter Request.isSha).length

/-- Remove the empty components of a component list. -/
def dropEmpties (l : List Str) : List Str := l.filter (fun x => !x.isEmpty)

/-- A component list with no trailing empty component (the path string has
no trailing separator). -/
def NoTrailEmpty (comps : List Str) : Prop := comps.getLast? ≠ some []

instance (comps : List Str) : Decidable (NoTrailEmpty comps) := by
  unfold NoTrailEmpty; infer_instance

/-- The exception class of an error, forgetting its payload. -/
def errKind : GErr → Nat
  | .missingFile _ _ => 0
  | .isDir _ _ => 1
  | .notADir _ _ => 2
  | .symlinkLoop _ _ => 3
  | .badMode _ _ _ => 4
  | .gitDied => 5
  | .assertFailed => 6
  | .valueError => 7
  | .indexError => 8
  | .attributeError => 9
  | .ioError _ => 10

/-- Two resolution results agree up to error payload: identical on
success, same exception class on failure. -/
def ResultRel (r1 r2 : Except GErr (Option Str)) : Prop :=
  (∃ v, r1 = .ok v ∧ r2 = .ok v) ∨
  (∃ e1 e2, r1 = .error e1 ∧ r2 = .error e2 ∧ errKind e1 = errKind e2)

/-! ## Concrete repositories used as test fixtures -/

/-- A finite store given by association lists. -/
def mkStore (paths : List ((Str × Str) × (Str × Str)))
    (shas : List (Str × (Str × Str))) : Store where
  byPath := fun r p => (paths.find? (fun e => decide (e.1 = (r, p)))).map (·.2)
  bySha := fun h => (shas.find? (fun e => decide (e.1 = h))).map (·.2)

def dsha : Str := List.replicate 20 'd'
def fsha : Str := List.replicate 20 'f'
def lsha : Str := List.replicate 20 'l'
def esha : Str := List.replicate 20 'e'
def ssha : Str := List.replicate 20 's'
def usha : Str := List.replicate 20 'u'

/-- A repository with a directory `d` containing a file `f`. -/
def dfStore : Store :=
  mkStore
    [((str "r", str ""), (str "tree", encodeRecords [⟨str "40000", str "d", dsha⟩])),
     ((str "r", str "d"), (str "tree", encodeRecords [⟨str "100644", str "f", fsha⟩]))]
    []

/-- A repository whose root has a file `f` and a self-looping symlink `l`
(the blob of `l` is the text `l`). -/
def fStore : Store :=
  mkStore
    [((str "r", str ""),
      (str "tree", encodeRecords [⟨str "100644", str "f", fsha⟩,
                                  ⟨str "120000", str "l", lsha⟩]))]
    [(hexEncode lsha, (str "blob", str "l"))]

/-- A repository whose root has a symlink `link` to the absolute path
`/etc/target` (an escape). -/
def escStore : Store :=
  mkStore
    [((str "r", str ""),
      (str "tree", encodeRecords [⟨str "120000", str "link", esha⟩]))]
    [(hexEncode esha, (str "blob", str "/etc/target"))]

/-- The real filesystem used with `escStore`: `/etc/target` holds bytes. -/
def escFs : Str → Option Str :=
  fun p => if p = str "/etc/target" then some (str "fs bytes") else none

/-- A repository whose root has a symlink `l` whose target text is `/`. -/
def slashStore : Store :=
  mkStore
    [((str "r", str ""),
      (str "tree", encodeRecords [⟨str "120000", str "l", ssha⟩]))]
    [(hexEncode ssha, (str "blob", str "/"))]

/-- A repository whose root has a symlink `u` whose target text is `../x`. -/
def dotdotStore : Store :=
  mkStore
    [((str "r", str ""),
      (str "tree", encodeRecords [⟨str "120000", str "u", usha⟩]))]
    [(hexEncode usha, (str "blob", str "../x"))]

/-- A repository whose root tree object is empty (a tree with no entries). -/
def emptyTreeStore : Store :=
  mkStore [((str "r", str ""), (str "tree", []))] []

/-- Name of the i-th link in the symlink chain fixture. -/
def lname (i : Nat) : Str := [Char.ofNat (65 + i)]

/-- Raw sha of the i-th link in the symlink chain fixture. -/
def chainSha (i : Nat) : Str := List.replicate 20 (Char.ofNat (129 + i))

/-- Root tree of the chain fixture: `n` symlinks, each pointing at the
next and the last at the plain file `tgt`. -/
def chainRootData (n : Nat) : Str :=
  encodeRecords
    ((List.range n).map (fun i => ⟨str "120000", lname i, chainSha i⟩) ++
     [⟨str "100644", str "tgt", List.replicate 20 'z'⟩])

/-- The chain repository: resolving the first link follows exactly `n`
symlink hops and then lands on the file `tgt`. -/
def chainStore (n : Nat) : Store where
  byPath := fun r p =>
    if r = str "r" ∧ p = [] then some (str "tree", chainRootData n) else none
  bySha := fun h =>
    (List.range n).findSome? (fun i =>
      if h = hexEncode (chainSha i) then
        some (str "blob", if i + 1 < n then lname (i + 1) else str "tgt")
      else none)

/-- Result of awaiting a response header on the pipe. `waiting` means the
loop has not exited within the observed number of iterations. -/
inductive AwaitRes where
  | got (header : Str)
  | died
  | waiting
deriving DecidableEq, Repr

/-- Python truthiness of `Popen.poll()`: `None` (still running) and exit
status `0` are falsy; only a nonzero exit status is truthy. -/
def pollTruthy : Option Int → Bool
  | none => false
  | some code => code ≠ 0

/-- The header-await loop of `_read_object_from_repo`:
`while not header: header = stdout.readline(); if poll(): raise GitDied`.
`readline k` and `poll k` are the values returned at the k-th iteration;
`fuel` bounds the observed iterations. -/
def awaitHeader (readline : Nat → Str) (poll : Nat → Option Int) :
    Nat → Nat → AwaitRes
  | 0, _ => .waiting
  | fuel + 1, k =>
    let header := readline k
    if pollTruthy (poll k) then .died
    else if header ≠ [] then .got header
    else awaitHeader readline poll fuel (k + 1)

/-! # Lemmas about the dictionary and cache operations -/

theorem treeGet_treePut_self (t : Tree) (n : Str) (v : Entry) :
    treeGet (treePut t n v) n = some v := by
  induction t with
  | nil => simp [treePut, treeGet]
  | cons hd tl ih =>
    obtain ⟨k, w⟩ := hd
    by_cases h : k = n <;> simp [treePut, treeGet, h, ih]

theorem treePut_of_not_mem (t : Tree) (n : Str) (v : Entry)
    (h : n ∉ t.map Prod.fst) : treePut t n v = t ++ [(n, v)] := by
  induction t with
  | nil => simp [treePut]
  | cons hd tl ih =>
    obtain ⟨k, w⟩ := hd
    simp only [List.map_cons, List.mem_cons, not_or] at h
    simp [treePut, Ne.symm h.1, ih h.2]

theorem treeGet_ne_nil {t : Tree} {n : Str} {e : Entry}
    (h : treeGet t n = some e) : t ≠ [] := by
  intro he; subst he; simp [treeGet] at h

theorem cacheGet_cachePut_self (c : Cache) (rev path : Str) (t : Tree) :
    cacheGet (cachePut c rev path t) rev path = some t := by
  induction c with
  | nil => simp [cachePut, cacheGet]
  | cons hd tl ih =>
    obtain ⟨k, u⟩ := hd
    by_cases h : k = (rev, path) <;> simp [cachePut, cacheGet, h, ih]

theorem cacheGet_cachePut_other (c : Cache) (rev path rv pt : Str) (t : Tree)
    (h : (rv, pt) ≠ (rev, path)) :
    cacheGet (cachePut c rev path t) rv pt = cacheGet c rv pt := by
  have hne : ((rev, path) : Str × Str) ≠ (rv, pt) := fun he => h he.symm
  induction c with
  | nil => simp [cachePut, cacheGet, hne]
  | cons hd tl ih =>
    obtain ⟨k, u⟩ := hd
    by_cases hk : k = (rev, path)
    · subst hk; simp [cachePut, cacheGet, hne]
    · simp [cachePut, cacheGet, hk, ih]

theorem cacheGet_cachePut_isSome (c : Cache) (rev path rv pt : Str) (t : Tree)
    (h : (cacheGet c rv pt).isSome) :
    (cacheGet (cachePut c rev path t) rv pt).isSome := by
  by_cases hk : (rv, pt) = (rev, path)
  · obtain ⟨h1, h2⟩ := Prod.mk.injEq .. ▸ hk
    subst h1; subst h2; simp [cacheGet_cachePut_self]
  · rwa [cacheGet_cachePut_other _ _ _ _ _ _ hk]

/-! # The tree decoder on well-formed input (claim C5) -/

theorem decodeGo_mode_scan :
    ∀ (m acc cs : Str) (t : Tree), ' ' ∉ m →
      decodeGo t (.inMode acc) (m ++ ' ' :: cs) =
        decodeGo t (.inName (acc ++ m) []) cs := by
  intro m
  induction m with
  | nil => intro acc cs t _; simp [decodeGo]
  | cons c m ih =>
    intro acc cs t hm
    simp only [List.mem_cons, not_or] at hm
    rw [List.cons_append, decodeGo, if_neg (Ne.symm hm.1), ih _ _ _ hm.2]
    simp

theorem decodeGo_name_scan :
    ∀ (n acc cs : Str) (t : Tree) (m : Str), Char.ofNat 0 ∉ n →
      decodeGo t (.inName m acc) (n ++ Char.ofNat 0 :: cs) =
        decodeGo t (.inSha m (acc ++ n) 20 []) cs := by
  intro n
  induction n with
  | nil => intro acc cs t m _; simp [decodeGo]
  | cons c n ih =>
    intro acc cs t m hn
    simp only [List.mem_cons, not_or] at hn
    rw [List.cons_append, decodeGo, if_neg (Ne.symm hn.1), ih _ _ _ _ hn.2]
    simp

theorem decodeGo_sha_scan :
    ∀ (sha : Str) (k : Nat) (acc cs : Str) (t : Tree) (m n : Str),
      sha.length = k → 1 ≤ k →
      decodeGo t (.inSha m n k acc) (sha ++ cs) =
        decodeGo (treePut t n (classify m n (hexEncode (acc ++ sha))))
          (.inMode []) cs := by
  intro sha
  induction sha with
  | nil => intro k acc cs t m n hlen hk; simp at hlen; omega
  | cons c sha ih =>
    intro k acc cs t m n hlen hk
    simp only [List.length_cons] at hlen
    by_cases h1 : k = 1
    · subst h1
      have hsha : sha = [] := List.length_eq_zero.mp (by omega)
      subst hsha
      simp [decodeGo]
    · rw [List.cons_append, decodeGo, if_neg h1,
        ih (k - 1) _ _ _ _ _ (by omega) (by omega)]
      simp

theorem decodeGo_record (r : TreeRecord) (cs : Str) (t : Tree)
    (hm : ' ' ∉ r.mode) (hn : Char.ofNat 0 ∉ r.name) (hs : r.sha.length = 20) :
    decodeGo t (.inMode []) (encodeRecord r ++ cs) =
      decodeGo (treePut t r.name (classify r.mode r.name (hexEncode r.sha)))
        (.inMode []) cs := by
  have : encodeRecord r ++ cs =
      r.mode ++ ' ' :: (r.name ++ Char.ofNat 0 :: (r.sha ++ cs)) := by
    simp [encodeRecord]
  rw [this, decodeGo_mode_scan _ _ _ _ hm, decodeGo_name_scan _ _ _ _ _ hn,
    decodeGo_sha_scan _ _ _ _ _ _ _ hs (by omega)]
  simp

theorem decodeGo_records :
    ∀ (rs : List TreeRecord) (t : Tree),
      (∀ r ∈ rs, (' ' ∉ r.mode) ∧ (Char.ofNat 0 ∉ r.name) ∧ r.sha.length = 20) →
      decodeGo t (.inMode []) (encodeRecords rs) =
        .ok (rs.foldl
          (fun u r => treePut u r.name (classify r.mode r.name (hexEncode r.sha)))
          t) := by
  intro rs
  induction rs with
  | nil => intro t _; simp [encodeRecords, decodeGo]
  | cons r rs ih =>
    intro t h
    have hr := h r (by simp)
    have hrest : ∀ x ∈ rs, (' ' ∉ x.mode) ∧ (Char.ofNat 0 ∉ x.name) ∧
        x.sha.length = 20 := fun x hx => h x (by simp [hx])
    have : encodeRecords (r :: rs) = encodeRecord r ++ encodeRecords rs := by
      simp [encodeRecords]
    rw [this, decodeGo_record _ _ _ hr.1 hr.2.1 hr.2.2, ih _ hrest]
    simp

theorem foldl_treePut_fresh :
    ∀ (rs : List TreeRecord) (t : Tree),
      (∀ r ∈ rs, r.name ∉ t.map Prod.fst) →
      (rs.map TreeRecord.name).Nodup →
      rs.foldl
        (fun u r => treePut u r.name (classify r.mode r.name (hexEncode r.sha)))
        t =
      t ++ rs.map (fun r => (r.name, classify r.mode r.name (hexEncode r.sha))) := by
  intro rs
  induction rs with
  | nil => intro t _ _; simp
  | cons r rs ih =>
    intro t hfresh hnd
    simp only [List.map_cons, List.nodup_cons] at hnd
    rw [List.foldl_cons, treePut_of_not_mem _ _ _ (hfresh r (by simp)),
      ih _ ?_ hnd.2]
    · simp
    · intro x hx
      simp only [List.map_append, List.mem_append, List.map_cons, not_or]
      refine ⟨hfresh x (by simp [hx]), ?_⟩
      simp only [List.map_nil, List.mem_cons, List.not_mem_nil, or_false]
      intro hxn
      exact hnd.1 (hxn ▸ List.mem_map_of_mem TreeRecord.name hx)

/-- C5: for every well-formed tree-object byte string — a concatenation of
records `mode SP name NUL sha(20 raw bytes)` with unique names — decoding
yields exactly one entry per record, keyed by the record's name, with the
20 raw sha bytes hex-encoded, classifying mode `120000` as a symlink,
`40000` as a directory, and any other mode as a file. -/
theorem c5_tree_decoder (rs : List TreeRecord) (h : RecordsWF rs) :
    decodeTree (encodeRecords rs) =
      .ok (rs.map (fun r => (r.name,
        if r.mode = str "120000" then Entry.symlink r.name (hexEncode r.sha)
        else if r.mode = str "40000" then Entry.dir r.name (hexEncode r.sha)
        else Entry.file r.name (hexEncode r.sha)))) := by
  obtain ⟨hrec, hnd⟩ := h
  rw [decodeTree, decodeGo_records rs [] hrec,
    foldl_treePut_fresh rs [] (by simp) hnd]
  simp [classify]

/-- Witness for C5 at the spec's handcrafted three-record tree blob. -/
theorem c5_tree_decoder_witness :
    RecordsWF [⟨str "100644", str "f", fsha⟩, ⟨str "40000", str "d", dsha⟩,
      ⟨str "120000", str "l", lsha⟩] ∧
    decodeTree (encodeRecords [⟨str "100644", str "f", fsha⟩,
        ⟨str "40000", str "d", dsha⟩, ⟨str "120000", str "l", lsha⟩]) =
      .ok (([⟨str "100644", str "f", fsha⟩, ⟨str "40000", str "d", dsha⟩,
        ⟨str "120000", str "l", lsha⟩] : List TreeRecord).map (fun r => (r.name,
          if r.mode = str "120000" then Entry.symlink r.name (hexEncode r.sha)
          else if r.mode = str "40000" then Entry.dir r.name (hexEncode r.sha)
          else Entry.file r.name (hexEncode r.sha)))) :=
  ⟨by decide, c5_tree_decoder _ (by decide)⟩

/-! # Wire-protocol claims (C6 and C8) -/

/-- C6: whenever the store responds with the two-field `missing` header,
the fetch fails with the MissingObject error (`MissingFileException`) for
both request forms; the error carries the `rev`/`relpath` arguments of the
request, which are the requested revision and path for the
`fetch(revision, path)` form and absent (`None`) for the `fetch(contentId)`
form. -/
theorem c6_missing_header (rev relpath sha idf header body : Str)
    (h : pyRsplit2 (pyRstrip header) = [idf, str "missing"]) :
    processResponse (.byRevPath rev relpath) header body =
      .error (.missingFile (some rev) (some relpath)) ∧
    processResponse (.bySha sha) header body =
      .error (.missingFile none none) := by
  constructor <;> · unfold processResponse; rw [h]; simp [Request.revArg, Request.relpathArg]

/-- Witness for C6 at the concrete header `"abc missing\n"`. -/
theorem c6_missing_header_witness :
    pyRsplit2 (pyRstrip (str "abc missing\n")) = [str "abc", str "missing"] ∧
    processResponse (.byRevPath (str "r") (str "a/b")) (str "abc missing\n") [] =
      .error (.missingFile (some (str "r")) (some (str "a/b"))) ∧
    processResponse (.bySha (str "abc")) (str "abc missing\n") [] =
      .error (.missingFile none none) :=
  ⟨by decide,
   (c6_missing_header (str "r") (str "a/b") (str "abc") (str "abc")
     (str "abc missing\n") [] (by decide)).1,
   (c6_missing_header (str "r") (str "a/b") (str "abc") (str "abc")
     (str "abc missing\n") [] (by decide)).2⟩

/-- C8 (the code, evaluated at the failing input): if the subprocess dies
while the header is awaited, `readline` returns the empty string and
`poll()` returns the exit status. Because the code tests `if poll():`
— Python truthiness — a nonzero exit status raises `GitDied`, but a
subprocess that exited with status 0 makes `poll()` falsy and the loop
spins forever on empty reads instead of raising. -/
theorem c8_header_await (fuel0 : Nat) :
    (∀ fuel k, awaitHeader (fun _ => []) (fun _ => some 0) fuel k = .waiting) ∧
    (∀ k (code : Int), code ≠ 0 →
      awaitHeader (fun _ => []) (fun _ => some code) (fuel0 + 1) k = .died) := by
  constructor
  · intro fuel
    induction fuel with
    | zero => intro k; rfl
    | succ n ih => intro k; simp [awaitHeader, pollTruthy, ih]
  · intro k code hc
    simp [awaitHeader, pollTruthy, hc]

/-- Witness for C8: with ten observed iterations, a status-0 death keeps
waiting while a status-1 death raises `GitDied`. -/
theorem c8_header_await_witness :
    awaitHeader (fun _ => []) (fun _ => some 0) 10 0 = .waiting ∧
    awaitHeader (fun _ => []) (fun _ => some 1) 10 0 = .died :=
  ⟨(c8_header_await 9).1 10 0, (c8_header_await 9).2 0 1 (by decide)⟩

/-! # The resolver's per-step error classification (claim C7) -/

/-- C7: while resolving, a component that is absent from its parent tree
fails `MissingFileException(rev, relpath)` with the original relative
path, and a component that names a File while further components remain
fails `NotADirException(rev, relpath)`. -/
theorem c7_walk_step_errors (s : Store) (c : Cache)
    (rev relpath comp pathSoFar : Str) (rest : List Str) (t : Tree)
    (c' : Cache) (l : List Request) (hcomp : comp ≠ [])
    (hrt : readTree s c rev pathSoFar = (.ok t, c', l)) :
    (treeGet t comp = none →
      walk s rev relpath (comp :: rest) pathSoFar c =
        (.final (.error (.missingFile (some rev) (some relpath))), c', l)) ∧
    (∀ n sha, treeGet t comp = some (.file n sha) → rest ≠ [] →
      walk s rev relpath (comp :: rest) pathSoFar c =
        (.final (.error (.notADir rev relpath)), c', l)) := by
  constructor
  · intro hmiss
    simp [walk, hcomp, hrt, hmiss]
  · intro n sha hfile hrest
    simp [walk, hcomp, hrt, hfile, hrest]

/-- Witness for C7 in the fixture with a file `f` at the root:
`resolve(r, f/x)` fails `NotADirException` and `resolve(r, nope)` fails
`MissingFileException`, both carrying the original relative path. -/
theorem c7_walk_step_errors_witness :
    walk fStore (str "r") (str "f/x") [str "f", str "x"] [] [] =
      (.final (.error (.notADir (str "r") (str "f/x"))),
        (readTree fStore [] (str "r") []).2.1,
        (readTree fStore [] (str "r") []).2.2) ∧
    walk fStore (str "r") (str "nope") [str "nope"] [] [] =
      (.final (.error (.missingFile (some (str "r")) (some (str "nope")))),
        (readTree fStore [] (str "r") []).2.1,
        (readTree fStore [] (str "r") []).2.2) :=
  ⟨(c7_walk_step_errors fStore [] (str "r") (str "f/x") (str "f") [] [str "x"]
      ((readTree fStore [] (str "r") []).1.toOption.getD [])
      (readTree fStore [] (str "r") []).2.1
      (readTree fStore [] (str "r") []).2.2
      (by decide) (by decide)).2 (str "f") (hexEncode fsha) (by decide) (by decide),
   (c7_walk_step_errors fStore [] (str "r") (str "nope") (str "nope") [] []
      ((readTree fStore [] (str "r") []).1.toOption.getD [])
      (readTree fStore [] (str "r") []).2.1
      (readTree fStore [] (str "r") []).2.2
      (by decide) (by decide)).1 (by decide)⟩

/-! # The symlink hop bound (claim C2) -/

theorem shaCount_append (l1 l2 : List Request) :
    shaCount (l1 ++ l2) = shaCount l1 + shaCount l2 := by
  simp [shaCount, List.filter_append]

theorem shaCount_readTreeFetch (s : Store) (c : Cache) (rev path : Str) :
    shaCount (readTreeFetch s c rev path).2.2 = 0 := by
  unfold readTreeFetch
  split
  · simp [shaCount, Request.isSha]
  · split
    · simp [shaCount, Request.isSha]
    · split <;> simp [shaCount, Request.isSha]

theorem shaCount_readTree (s : Store) (c : Cache) (rev path : Str) :
    shaCount (readTree s c rev path).2.2 = 0 := by
  unfold readTree
  split
  · split
    · exact shaCount_readTreeFetch s c rev path
    · simp [shaCount]
  · exact shaCount_readTreeFetch s c rev path

theorem shaCount_walk (s : Store) (rev relpath : Str) :
    ∀ (comps : List Str) (ps : Str) (c : Cache),
      shaCount (walk s rev relpath comps ps c).2.2 = 0 := by
  intro comps
  induction comps with
  | nil => intro ps c; simp [walk, shaCount]
  | cons comp rest ih =>
    intro ps c
    by_cases hc : comp = []
    · simpa [walk, hc] using ih ps c
    · rcases hrt : readTree s c rev ps with ⟨rt, c', l⟩
      have hl : shaCount l = 0 := by
        have h0 := shaCount_readTree s c rev ps
        rw [hrt] at h0; exact h0
      rcases rt with e | t
      · simp [walk, hc, hrt, hl]
      · rcases hg : treeGet t comp with _ | e
        · simp [walk, hc, hrt, hg, hl]
        · rcases e with ⟨n, sha⟩ | ⟨n, sha⟩ | ⟨n, sha⟩
          · simp [walk, hc, hrt, hg, hl]
          · by_cases hrest : rest = [] <;>
              simp [walk, hc, hrt, hg, hl, hrest, shaCount_append, ih]
          · by_cases hrest : rest = [] <;> simp [walk, hc, hrt, hg, hl, hrest]

theorem shaCount_resolveLoop (s : Store) (rev relpath : Str) :
    ∀ (hops : Nat) (comps : List Str) (ps : Str) (c : Cache),
      shaCount (resolveLoop s rev relpath hops comps ps c).2.2 ≤ hops := by
  intro hops
  induction hops with
  | zero =>
    intro comps ps c
    rcases hw : walk s rev relpath comps ps c with ⟨wr, c', l⟩
    have hl : shaCount l = 0 := by
      have h0 := shaCount_walk s rev relpath comps ps c
      rw [hw] at h0; exact h0
    rcases wr with r | ⟨pp, sha, rest⟩ <;> simp [resolveLoop, hw, hl]
  | succ hops ih =>
    intro comps ps c
    rcases hw : walk s rev relpath comps ps c with ⟨wr, c', l⟩
    have hl : shaCount l = 0 := by
      have h0 := shaCount_walk s rev relpath comps ps c
      rw [hw] at h0; exact h0
    have hl0 : (List.filter Request.isSha l).length = 0 := by
      simpa [shaCount] using hl
    rcases wr with r | ⟨pp, sha, rest⟩
    · simp [resolveLoop, hw, hl]
    · rcases hro : readObject s (.bySha sha) with e | ⟨ot, pd⟩
      · simp [resolveLoop, hw, hro, shaCount_append, shaCount,
          Request.isSha] <;> omega
      · by_cases hot : ot ≠ str "blob"
        · simp [resolveLoop, hw, hro, hot, shaCount_append, shaCount,
            Request.isSha] <;> omega
        · by_cases hesc : startsW (str "../") (pyNormpath (pyJoin pp pd))
          · simp [resolveLoop, hw, hro, hot, hesc, shaCount_append, shaCount,
              Request.isSha] <;> omega
          · rcases hlt : pyNormpath (pyJoin pp pd) with _ | ⟨c0, lt⟩
            · rw [hlt] at hesc
              simp [resolveLoop, hw, hro, hot, hesc, hlt, shaCount_append,
                shaCount, Request.isSha] <;> omega
            · rw [hlt] at hesc
              by_cases hc0 : c0 = '/'
              · simp [resolveLoop, hw, hro, hot, hesc, hlt, hc0, shaCount_append,
                  shaCount, Request.isSha] <;> omega
              · have hrec := ih (pySplit '/' (c0 :: lt) ++ rest) [] c'
                simp only [shaCount] at hrec
                simp [resolveLoop, hw, hro, hot, hesc, hlt, hc0, shaCount_append,
                  shaCount, Request.isSha, hl0]
                exact hrec

/-- C2: resolution follows at most 40 symlink hops — every run of
`_realpath` makes at most 40 symlink-blob fetches — and in the chain
fixture a chain of exactly 40 hops with no escape resolves successfully
(performing exactly 40 hops), while a chain that would require a 41st hop
fails `SymlinkLoopException` carrying the revision and the original
relative path. -/
theorem c2_symlink_hop_bound :
    (∀ (s : Store) (c : Cache) (rev relpath : Str),
      shaCount (realpath s c rev relpath).2.2 ≤ 40) ∧
    ((realpath (chainStore 40) [] (str "r") (lname 0)).1 =
        .ok (some (str "tgt")) ∧
      shaCount (realpath (chainStore 40) [] (str "r") (lname 0)).2.2 = 40) ∧
    (realpath (chainStore 41) [] (str "r") (lname 0)).1 =
      .error (.symlinkLoop (str "r") (lname 0)) := by
  refine ⟨?_, ⟨?_, ?_⟩, ?_⟩
  · intro s c rev relpath
    unfold realpath
    split
    · simp [shaCount]
    · exact shaCount_resolveLoop s rev relpath 40 _ [] c
  · decide
  · decide
  · decide

/-! # The boolean facade (claim C3) -/

/-- C3: `exists`, `isfile` and `isdir` call `_realpath`; they return
`false` when it fails `MissingFileException` or `NotADirException`; on
success with a CanonicalPath, `isfile` is true exactly when the path has
no trailing separator and `isdir` exactly when it has one (and `exists` is
true); every other failure propagates out of all three helpers. -/
theorem c3_facade_classification (s : Store) (c : Cache) (rev relpath : Str) :
    (∀ r0 p0, (realpath s c rev relpath).1 = .error (.missingFile r0 p0) →
      (existsB s c rev relpath).1 = .ok false ∧
      (isfileB s c rev relpath).1 = .ok false ∧
      (isdirB s c rev relpath).1 = .ok false) ∧
    (∀ r0 p0, (realpath s c rev relpath).1 = .error (.notADir r0 p0) →
      (existsB s c rev relpath).1 = .ok false ∧
      (isfileB s c rev relpath).1 = .ok false ∧
      (isdirB s c rev relpath).1 = .ok false) ∧
    (∀ q, (realpath s c rev relpath).1 = .ok (some q) →
      (existsB s c rev relpath).1 = .ok true ∧
      (isfileB s c rev relpath).1 = .ok (!endsSlash q) ∧
      (isdirB s c rev relpath).1 = .ok (endsSlash q)) ∧
    (∀ e, (realpath s c rev relpath).1 = .error e →
      errKind e ≠ errKind (.missingFile none none) →
      errKind e ≠ errKind (.notADir [] []) →
      (existsB s c rev relpath).1 = .error e ∧
      (isfileB s c rev relpath).1 = .error e ∧
      (isdirB s c rev relpath).1 = .error e) := by
  rcases hrp : realpath s c rev relpath with ⟨r, c', l⟩
  refine ⟨?_, ?_, ?_, ?_⟩
  · intro r0 p0 h
    simp only at h; subst h
    simp [existsB, isfileB, isdirB, hrp]
  · intro r0 p0 h
    simp only at h; subst h
    simp [existsB, isfileB, isdirB, hrp]
  · intro q h
    simp only at h; subst h
    simp [existsB, isfileB, isdirB, hrp]
  · intro e h hk1 hk2
    simp only at h; subst h
    cases e <;> simp [errKind] at hk1 hk2 ⊢ <;>
      simp [existsB, isfileB, isdirB, hrp]

/-- Witness for C3 across all four cases: a missing path and a
file-mid-path are `false`, a file/directory hit classifies by the
trailing separator, and a `SymlinkLoopException` propagates. -/
theorem c3_facade_classification_witness :
    (existsB fStore [] (str "r") (str "nope")).1 = .ok false ∧
    (isfileB fStore [] (str "r") (str "f/x")).1 = .ok false ∧
    (isfileB fStore [] (str "r") (str "f")).1 = .ok (!endsSlash (str "f")) ∧
    (isdirB dfStore [] (str "r") (str "d")).1 = .ok (endsSlash (str "d/")) ∧
    (isdirB fStore [] (str "r") (str "l")).1 =
      .error (.symlinkLoop (str "r") (str "l")) :=
  ⟨((c3_facade_classification fStore [] (str "r") (str "nope")).1
      (some (str "r")) (some (str "nope")) (by decide)).1,
   ((c3_facade_classification fStore [] (str "r") (str "f/x")).2.1
      (str "r") (str "f/x") (by decide)).2.1,
   ((c3_facade_classification fStore [] (str "r") (str "f")).2.2.1
      (str "f") (by decide)).2.1,
   ((c3_facade_classification dfStore [] (str "r") (str "d")).2.2.1
      (str "d/") (by decide)).2.2,
   ((c3_facade_classification fStore [] (str "r") (str "l")).2.2.2
      (.symlinkLoop (str "r") (str "l")) (by decide) (by decide) (by decide)).2.2⟩

/-! # `open` on an escape path (claim C1) -/

/-- C1 (the code, evaluated at the failing input): resolving `link` in
`escStore` yields the escape CanonicalPath `/etc/target`; `open` in mode
`rb` yields the real-filesystem file's bytes, but — the escape branch
having no `return` after its `yield` — execution falls through and also
fetches `r:/etc/target` from the object store, which here raises
`MissingFileException` out of the generator. -/
theorem c1_open_escape_also_fetches :
    (realpath escStore [] (str "r") (str "link")).1 =
      .ok (some (str "/etc/target")) ∧
    startsW ['/'] (str "/etc/target") = true ∧
    (openG escStore escFs [] (str "r") (str "link") (str "rb")).yields =
      [.fsFile (str "/etc/target") (str "fs bytes")] ∧
    (Request.byRevPath (str "r") (str "/etc/target")) ∈
      (openG escStore escFs [] (str "r") (str "link") (str "rb")).log ∧
    (openG escStore escFs [] (str "r") (str "link") (str "rb")).error =
      some (.missingFile (some (str "r")) (some (str "/etc/target"))) := by
  refine ⟨by decide, by decide, by decide, by decide, by decide⟩

/-! # Classification of escape paths (claim C10) -/

/-- C10 (amended): when resolution succeeds with an escape CanonicalPath
(beginning with `../` or `/`), `exists` returns true and `isfile`/`isdir`
classify purely by the trailing separator of the resolved string — the
real filesystem is never consulted (the helpers take no filesystem
argument at all). `isfile` is true and `isdir` false except for the
escape paths that end in a separator (a target normalizing to `/` or
`//`). -/
theorem c10_escape_classification (s : Store) (c : Cache)
    (rev relpath q : Str)
    (hq : (realpath s c rev relpath).1 = .ok (some q))
    (_hesc : startsW (str "../") q = true ∨ startsW ['/'] q = true) :
    (existsB s c rev relpath).1 = .ok true ∧
    (isfileB s c rev relpath).1 = .ok (!endsSlash q) ∧
    (isdirB s c rev relpath).1 = .ok (endsSlash q) := by
  rcases hrp : realpath s c rev relpath with ⟨r, c', l⟩
  rw [hrp] at hq; simp only at hq; subst hq
  simp [existsB, isfileB, isdirB, hrp]

/-- Witness for C10 at the `../x` escape: `exists` true, `isfile` true,
`isdir` false. -/
theorem c10_escape_classification_witness :
    (realpath dotdotStore [] (str "r") (str "u")).1 = .ok (some (str "../x")) ∧
    (existsB dotdotStore [] (str "r") (str "u")).1 = .ok true ∧
    (isfileB dotdotStore [] (str "r") (str "u")).1 = .ok (!endsSlash (str "../x")) ∧
    (isdirB dotdotStore [] (str "r") (str "u")).1 = .ok (endsSlash (str "../x")) :=
  ⟨by decide,
   (c10_escape_classification dotdotStore [] (str "r") (str "u") (str "../x")
      (by decide) (.inl (by decide))).1,
   (c10_escape_classification dotdotStore [] (str "r") (str "u") (str "../x")
      (by decide) (.inl (by decide))).2.1,
   (c10_escape_classification dotdotStore [] (str "r") (str "u") (str "../x")
      (by decide) (.inl (by decide))).2.2⟩

/-- Counterexample to C10 as stated: a symlink whose target is `/`
resolves to the escape CanonicalPath `/` (it begins with `/`), yet
`isfile` returns false and `isdir` returns true. -/
theorem c10_counterexample :
    (realpath slashStore [] (str "r") (str "l")).1 = .ok (some (str "/")) ∧
    startsW ['/'] (str "/") = true ∧
    (isfileB slashStore [] (str "r") (str "l")).1 = .ok false ∧
    (isdirB slashStore [] (str "r") (str "l")).1 = .ok true := by
  refine ⟨by decide, by decide, by decide, by decide⟩

/-! # Counterexamples for claims C9 and C4 -/

/-- Counterexample to C9 as stated: `f/` has one trailing empty component;
removing it gives `f`, which resolves to the CanonicalPath `f`, but `f/`
itself fails `NotADirException` — a different outcome kind. -/
theorem c9_counterexample :
    (realpath fStore [] (str "r") (str "f")).1 = .ok (some (str "f")) ∧
    (realpath fStore [] (str "r") (str "f/")).1 =
      .error (.notADir (str "r") (str "f/")) := by
  refine ⟨by decide, by decide⟩

/-- Counterexample to C4 as stated: the first lookup of the empty root
tree populates the cache, yet the second lookup of the same
`(revision, path)` performs another store request, because `_read_tree`
tests the cached dict with `if tree:` and an empty dict is falsy. -/
theorem c4_counterexample :
    (readTree emptyTreeStore [] (str "r") []).2.1 = [((str "r", []), [])] ∧
    (readTree emptyTreeStore [((str "r", []), [])] (str "r") []).2.2 =
      [.byRevPath (str "r") []] := by
  refine ⟨by decide, by decide⟩

/-! # Cache behaviour of `_read_tree` and `_realpath` (claim C4) -/

theorem readTree_ok_cacheGet (s : Store) (c : Cache) (rev path : Str)
    (t : Tree) (c' : Cache) (l : List Request)
    (h : readTree s c rev path = (.ok t, c', l)) :
    cacheGet c' rev path = some t := by
  have hfetch : ∀ (h' : readTreeFetch s c rev path = (.ok t, c', l)),
      cacheGet c' rev path = some t := by
    intro h'
    unfold readTreeFetch at h'
    split at h'
    · simp at h'
    · split at h'
      · simp at h'
      · split at h'
        · simp at h'
        · simp only [Prod.mk.injEq, Except.ok.injEq] at h'
          obtain ⟨h1, h2, _⟩ := h'
          subst h1; subst h2
          apply cacheGet_cachePut_self
  rcases hget : cacheGet c rev path with _ | t0
  · simp only [readTree, hget] at h
    exact hfetch h
  · simp only [readTree, hget] at h
    by_cases hemp : t0.isEmpty
    · rw [if_pos hemp] at h
      exact hfetch h
    · rw [if_neg hemp] at h
      simp only [Prod.mk.injEq, Except.ok.injEq] at h
      obtain ⟨h1, h2, _⟩ := h
      subst h1; subst h2
      exact hget

theorem cacheGet_nonempty_readTree (s : Store) (c : Cache) (rev path : Str)
    (t : Tree) (hget : cacheGet c rev path = some t) (ht : t ≠ []) :
    readTree s c rev path = (.ok t, c, []) := by
  simp only [readTree, hget]
  rw [if_neg]
  simpa [List.isEmpty_iff] using ht

theorem readTree_stable (s : Store) (c : Cache) (rev path : Str) (t : Tree)
    (c' : Cache) (l : List Request)
    (h : readTree s c rev path = (.ok t, c', l)) (ht : t ≠ []) :
    readTree s c' rev path = (.ok t, c', []) :=
  cacheGet_nonempty_readTree s c' rev path t (readTree_ok_cacheGet s c rev path t c' l h) ht

theorem readTree_cache_shape (s : Store) (c : Cache) (rev path : Str) :
    (readTree s c rev path).2.1 = c ∨
    ∃ t, (readTree s c rev path).2.1 = cachePut c rev path t := by
  have hfetch : (readTreeFetch s c rev path).2.1 = c ∨
      ∃ t, (readTreeFetch s c rev path).2.1 = cachePut c rev path t := by
    unfold readTreeFetch
    split
    · exact .inl rfl
    · split
      · exact .inl rfl
      · split
        · exact .inl rfl
        · exact .inr ⟨_, rfl⟩
  unfold readTree
  split
  · split
    · exact hfetch
    · exact .inl rfl
  · exact hfetch

theorem readTree_pres_nonempty (s : Store) (c : Cache) (a b rv pt : Str)
    (t : Tree) (hc : cacheGet c rv pt = some t) (ht : t ≠ []) :
    cacheGet (readTree s c a b).2.1 rv pt = some t := by
  by_cases hk : (rv, pt) = (a, b)
  · have h1 : rv = a := congrArg Prod.fst hk
    have h2 : pt = b := congrArg Prod.snd hk
    subst h1; subst h2
    rw [cacheGet_nonempty_readTree _ _ _ _ _ hc ht]
    exact hc
  · rcases readTree_cache_shape s c a b with h | ⟨t', h⟩
    · rw [h]; exact hc
    · rw [h, cacheGet_cachePut_other c a b rv pt t' hk]; exact hc

theorem readTree_keys_mono (s : Store) (c : Cache) (a b rv pt : Str)
    (hc : (cacheGet c rv pt).isSome = true) :
    (cacheGet (readTree s c a b).2.1 rv pt).isSome = true := by
  rcases readTree_cache_shape s c a b with h | ⟨t', h⟩
  · rw [h]; exact hc
  · rw [h]; exact cacheGet_cachePut_isSome c a b rv pt t' hc

theorem walk_pres_nonempty (s : Store) (rev relpath : Str) :
    ∀ (comps : List Str) (ps : Str) (c : Cache) (rv pt : Str) (t : Tree),
      cacheGet c rv pt = some t → t ≠ [] →
      cacheGet (walk s rev relpath comps ps c).2.1 rv pt = some t := by
  intro comps
  induction comps with
  | nil => intro ps c rv pt t hc ht; simpa [walk] using hc
  | cons comp rest ih =>
    intro ps c rv pt t hc ht
    by_cases hcomp : comp = []
    · subst hcomp; simpa [walk] using ih ps c rv pt t hc ht
    · rcases hrt : readTree s c rev ps with ⟨rt, c2, l2⟩
      have hc2 : cacheGet c2 rv pt = some t := by
        have h0 := readTree_pres_nonempty s c rev ps rv pt t hc ht
        rw [hrt] at h0; exact h0
      rcases rt with e | tr
      · simp [walk, hcomp, hrt, hc2]
      · rcases hget : treeGet tr comp with _ | e
        · simp [walk, hcomp, hrt, hget, hc2]
        · rcases e with ⟨n, sha⟩ | ⟨n, sha⟩ | ⟨n, sha⟩
          · by_cases hrest : rest = [] <;> simp [walk, hcomp, hrt, hget, hrest, hc2]
          · by_cases hrest : rest = []
            · simp [walk, hcomp, hrt, hget, hrest, hc2]
            · simp [walk, hcomp, hrt, hget, hrest, ih _ c2 rv pt t hc2 ht]
          · by_cases hrest : rest = [] <;> simp [walk, hcomp, hrt, hget, hrest, hc2]

theorem walk_keys_mono (s : Store) (rev relpath : Str) :
    ∀ (comps : List Str) (ps : Str) (c : Cache) (rv pt : Str),
      (cacheGet c rv pt).isSome = true →
      (cacheGet (walk s rev relpath comps ps c).2.1 rv pt).isSome = true := by
  intro comps
  induction comps with
  | nil => intro ps c rv pt hc; simpa [walk] using hc
  | cons comp rest ih =>
    intro ps c rv pt hc
    by_cases hcomp : comp = []
    · subst hcomp; simpa [walk] using ih ps c rv pt hc
    · rcases hrt : readTree s c rev ps with ⟨rt, c2, l2⟩
      have hc2 : (cacheGet c2 rv pt).isSome = true := by
        have h0 := readTree_keys_mono s c rev ps rv pt hc
        rw [hrt] at h0; exact h0
      rcases rt with e | tr
      · simp [walk, hcomp, hrt, hc2]
      · rcases hget : treeGet tr comp with _ | e
        · simp [walk, hcomp, hrt, hget, hc2]
        · rcases e with ⟨n, sha⟩ | ⟨n, sha⟩ | ⟨n, sha⟩
          · by_cases hrest : rest = [] <;> simp [walk, hcomp, hrt, hget, hrest, hc2]
          · by_cases hrest : rest = []
            · simp [walk, hcomp, hrt, hget, hrest, hc2]
            · simp [walk, hcomp, hrt, hget, hrest, ih _ c2 rv pt hc2]
          · by_cases hrest : rest = [] <;> simp [walk, hcomp, hrt, hget, hrest, hc2]

theorem resolveLoop_keys_mono (s : Store) (rev relpath : Str) :
    ∀ (hops : Nat) (comps : List Str) (ps : Str) (c : Cache) (rv pt : Str),
      (cacheGet c rv pt).isSome = true →
      (cacheGet (resolveLoop s rev relpath hops comps ps c).2.1 rv pt).isSome = true := by
  intro hops
  induction hops with
  | zero =>
    intro comps ps c rv pt hc
    rcases hw : walk s rev relpath comps ps c with ⟨wr, c2, l2⟩
    have hc2 : (cacheGet c2 rv pt).isSome = true := by
      have h0 := walk_keys_mono s rev relpath comps ps c rv pt hc
      rw [hw] at h0; exact h0
    rcases wr with r | ⟨pp, sha, rest⟩ <;> simp [resolveLoop, hw, hc2]
  | succ hops ih =>
    intro comps ps c rv pt hc
    rcases hw : walk s rev relpath comps ps c with ⟨wr, c2, l2⟩
    have hc2 : (cacheGet c2 rv pt).isSome = true := by
      have h0 := walk_keys_mono s rev relpath comps ps c rv pt hc
      rw [hw] at h0; exact h0
    rcases wr with r | ⟨pp, sha, rest⟩
    · simp [resolveLoop, hw, hc2]
    · rcases hro : readObject s (.bySha sha) with e | ⟨ot, pd⟩
      · simp [resolveLoop, hw, hro, hc2]
      · by_cases hot : ot ≠ str "blob"
        · simp [resolveLoop, hw, hro, hot, hc2]
        · by_cases hesc : startsW (str "../") (pyNormpath (pyJoin pp pd))
          · simp [resolveLoop, hw, hro, hot, hesc, hc2]
          · rcases hlt : pyNormpath (pyJoin pp pd) with _ | ⟨c0, lt⟩
            · rw [hlt] at hesc
              simp [resolveLoop, hw, hro, hot, hesc, hlt, hc2]
            · rw [hlt] at hesc
              by_cases hc0 : c0 = '/'
              · simp [resolveLoop, hw, hro, hot, hesc, hlt, hc0, hc2]
              · simp [resolveLoop, hw, hro, hot, hesc, hlt, hc0,
                  ih (pySplit '/' (c0 :: lt) ++ rest) [] c2 rv pt hc2]

theorem walk_retrace (s : Store) (rev relpath : Str) :
    ∀ (comps : List Str) (ps : Str) (c : Cache) (v : Option Str),
      (walk s rev relpath comps ps c).1 = .final (.ok v) →
      walk s rev relpath comps ps (walk s rev relpath comps ps c).2.1 =
        (.final (.ok v), (walk s rev relpath comps ps c).2.1, []) := by
  intro comps
  induction comps with
  | nil =>
    intro ps c v h
    simp only [walk] at h ⊢
    simp only [WalkRes.final.injEq, Except.ok.injEq] at h
    subst h
    rfl
  | cons comp rest ih =>
    intro ps c v h
    by_cases hcomp : comp = []
    · subst hcomp
      simp only [walk, if_pos rfl] at h ⊢
      exact ih ps c v h
    · rcases hrt : readTree s c rev ps with ⟨rt, c2, l2⟩
      rcases rt with e | t
      · rw [show walk s rev relpath (comp :: rest) ps c =
            (.final (.error e), c2, l2) by simp [walk, hcomp, hrt]] at h
        simp at h
      · rcases hget : treeGet t comp with _ | e
        · rw [show walk s rev relpath (comp :: rest) ps c =
              (.final (.error (.missingFile (some rev) (some relpath))), c2, l2) by
            simp [walk, hcomp, hrt, hget]] at h
          simp at h
        · have ht : t ≠ [] := treeGet_ne_nil hget
          rcases e with ⟨n, sha⟩ | ⟨n, sha⟩ | ⟨n, sha⟩
          · rw [show walk s rev relpath (comp :: rest) ps c =
                (.symlinkHit ps sha rest, c2, l2) by
              simp [walk, hcomp, hrt, hget]] at h
            simp at h
          · by_cases hrest : rest = []
            · have hw : walk s rev relpath (comp :: rest) ps c =
                  (.final (.ok (some ((if ps ≠ [] then ps ++ ['/'] else []) ++ comp ++ ['/']))),
                    c2, l2) := by
                simp [walk, hcomp, hrt, hget, hrest]
              rw [hw] at h ⊢
              simp only [WalkRes.final.injEq, Except.ok.injEq] at h
              subst h
              have hrt2 := readTree_stable s c rev ps t c2 l2 hrt ht
              simp [walk, hcomp, hrt2, hget, hrest]
            · rcases hw2 : walk s rev relpath rest
                  ((if ps = [] then [] else ps ++ ['/']) ++ comp) c2 with ⟨r2, c3, l3⟩
              have hw : walk s rev relpath (comp :: rest) ps c = (r2, c3, l2 ++ l3) := by
                simp [walk, hcomp, hrt, hget, hrest, hw2]
              rw [hw] at h ⊢
              simp only at h
              subst h
              have hih : (walk s rev relpath rest
                  ((if ps = [] then [] else ps ++ ['/']) ++ comp) c2).1 =
                  .final (.ok v) := by rw [hw2]
              have ihw := ih ((if ps = [] then [] else ps ++ ['/']) ++ comp) c2 v hih
              rw [hw2] at ihw
              simp only at ihw
              have hgetc2 : cacheGet c2 rev ps = some t :=
                readTree_ok_cacheGet s c rev ps t c2 l2 hrt
              have hgetc3 : cacheGet c3 rev ps = some t := by
                have h0 := walk_pres_nonempty s rev relpath rest
                  ((if ps = [] then [] else ps ++ ['/']) ++ comp) c2 rev ps t hgetc2 ht
                rw [hw2] at h0
                exact h0
              have hrt3 : readTree s c3 rev ps = (.ok t, c3, []) :=
                cacheGet_nonempty_readTree s c3 rev ps t hgetc3 ht
              simp [walk, hcomp, hrt3, hget, hrest, ihw]
          · by_cases hrest : rest = []
            · have hw : walk s rev relpath (comp :: rest) ps c =
                  (.final (.ok (some ((if ps ≠ [] then ps ++ ['/'] else []) ++ comp))),
                    c2, l2) := by
                simp [walk, hcomp, hrt, hget, hrest]
              rw [hw] at h ⊢
              simp only [WalkRes.final.injEq, Except.ok.injEq] at h
              subst h
              have hrt2 := readTree_stable s c rev ps t c2 l2 hrt ht
              simp [walk, hcomp, hrt2, hget, hrest]
            · rw [show walk s rev relpath (comp :: rest) ps c =
                  (.final (.error (.notADir rev relpath)), c2, l2) by
                simp [walk, hcomp, hrt, hget, hrest]] at h
              simp at h

theorem resolveLoop_retrace (s : Store) (rev relpath : Str)
    (hops : Nat) (comps : List Str) (ps : Str) (c : Cache) (v : Option Str)
    (h : (resolveLoop s rev relpath hops comps ps c).1 = .ok v)
    (hsha : shaCount (resolveLoop s rev relpath hops comps ps c).2.2 = 0) :
    resolveLoop s rev relpath hops comps ps
        (resolveLoop s rev relpath hops comps ps c).2.1 =
      (.ok v, (resolveLoop s rev relpath hops comps ps c).2.1, []) := by
  rcases hw : walk s rev relpath comps ps c with ⟨wr, c2, l2⟩
  rcases wr with r | ⟨pp, sha, rest⟩
  · have hl : resolveLoop s rev relpath hops comps ps c = (r, c2, l2) := by
      cases hops with
      | zero => rw [resolveLoop, hw]
      | succ hops => rw [resolveLoop, hw]
    rw [hl] at h hsha ⊢
    simp only at h hsha ⊢
    subst h
    have hwr := walk_retrace s rev relpath comps ps c v (by rw [hw])
    rw [hw] at hwr
    simp only at hwr
    cases hops with
    | zero => rw [resolveLoop, hwr]
    | succ hops => rw [resolveLoop, hwr]
  · cases hops with
    | zero =>
      have hl : resolveLoop s rev relpath 0 comps ps c =
          (.error (.symlinkLoop rev relpath), c2, l2) := by
        rw [resolveLoop, hw]
      rw [hl] at h
      simp at h
    | succ hops =>
      exfalso
      rcases hro : readObject s (.bySha sha) with e | ⟨ot, pd⟩
      · have hl : resolveLoop s rev relpath (hops + 1) comps ps c =
            (.error e, c2, l2 ++ [.bySha sha]) := by
          rw [resolveLoop, hw]; simp [hro]
        rw [hl] at h
        simp at h
      · by_cases hot : ot ≠ str "blob"
        · have hl : resolveLoop s rev relpath (hops + 1) comps ps c =
              (.error .assertFailed, c2, l2 ++ [.bySha sha]) := by
            rw [resolveLoop, hw]; simp [hro, hot]
          rw [hl] at h
          simp at h
        · by_cases hesc : startsW (str "../") (pyNormpath (pyJoin pp pd))
          · have hl : resolveLoop s rev relpath (hops + 1) comps ps c =
                (.ok (some (pyNormpath (pyJoin pp pd))), c2, l2 ++ [.bySha sha]) := by
              rw [resolveLoop, hw]; simp [hro, hot, hesc]
            rw [hl] at hsha
            simp [shaCount_append, shaCount, Request.isSha] at hsha
          · rcases hlt : pyNormpath (pyJoin pp pd) with _ | ⟨c0, lt⟩
            · rw [hlt] at hesc
              have hl : resolveLoop s rev relpath (hops + 1) comps ps c =
                  (.error .indexError, c2, l2 ++ [.bySha sha]) := by
                rw [resolveLoop, hw]; simp [hro, hot, hlt, hesc]
              rw [hl] at h
              simp at h
            · rw [hlt] at hesc
              by_cases hc0 : c0 = '/'
              · have hl : resolveLoop s rev relpath (hops + 1) comps ps c =
                    (.ok (some (c0 :: lt)), c2, l2 ++ [.bySha sha]) := by
                  rw [resolveLoop, hw]; simp [hro, hot, hlt, hesc, hc0]
                rw [hl] at hsha
                simp [shaCount_append, shaCount, Request.isSha] at hsha
              · rcases hrec : resolveLoop s rev relpath hops
                    (pySplit '/' (c0 :: lt) ++ rest) [] c2 with ⟨rr, cr, lr⟩
                have hl : resolveLoop s rev relpath (hops + 1) comps ps c =
                    (rr, cr, l2 ++ [.bySha sha] ++ lr) := by
                  rw [resolveLoop, hw]; simp [hro, hot, hlt, hesc, hc0, hrec]
                rw [hl] at hsha
                simp [shaCount_append, shaCount, Request.isSha] at hsha

/-- C4 (amended): a tree lookup that cached a tree with at least one
entry is answered from the cache on the second identical lookup — same
tree, unchanged cache, no store request (an *empty* cached tree, being a
falsy dict, is re-fetched, per the counterexample); cache entries are
never invalidated or expired (every cached key survives any resolve);
and a successful resolve that followed no symlink, repeated from the
resulting cache, returns the identical CanonicalPath with no additional
store request. -/
theorem c4_cache_behavior :
    (∀ (s : Store) (c : Cache) (rev path : Str) (t : Tree) (c' : Cache)
        (l : List Request),
      readTree s c rev path = (.ok t, c', l) → t ≠ [] →
      readTree s c' rev path = (.ok t, c', [])) ∧
    (∀ (s : Store) (c : Cache) (rev relpath rv pt : Str),
      (cacheGet c rv pt).isSome = true →
      (cacheGet (realpath s c rev relpath).2.1 rv pt).isSome = true) ∧
    (∀ (s : Store) (c : Cache) (rev relpath : Str) (v : Option Str)
        (c1 : Cache) (log : List Request),
      realpath s c rev relpath = (.ok v, c1, log) → shaCount log = 0 →
      realpath s c1 rev relpath = (.ok v, c1, [])) := by
  refine ⟨readTree_stable, ?_, ?_⟩
  · intro s c rev relpath rv pt hc
    unfold realpath
    split
    · exact hc
    · exact resolveLoop_keys_mono s rev relpath 40 _ [] c rv pt hc
  · intro s c rev relpath v c1 log h hsha
    unfold realpath at h ⊢
    split at h
    · simp only [Prod.mk.injEq, Except.ok.injEq] at h
      obtain ⟨hv, hc, _⟩ := h
      rw [if_pos (by assumption), hv]
    · rw [if_neg (by assumption)]
      have h1 : (resolveLoop s rev relpath 40 (pySplit '/' relpath) [] c).1 =
          .ok v := by rw [h]
      have h2 : shaCount
          (resolveLoop s rev relpath 40 (pySplit '/' relpath) [] c).2.2 = 0 := by
        rw [h]; exact hsha
      have h3 : (resolveLoop s rev relpath 40 (pySplit '/' relpath) [] c).2.1 =
          c1 := by rw [h]
      have hmain := resolveLoop_retrace s rev relpath 40 (pySplit '/' relpath)
        [] c v h1 h2
      rw [h3] at hmain
      exact hmain

/-- Witness for C4 in the `d/f` fixture: the second root lookup is a
cache hit with no request; the root stays cached across a second resolve;
and repeating `resolve(r, d/f)` returns the identical CanonicalPath with
an empty request log. -/
theorem c4_cache_behavior_witness :
    readTree dfStore [((str "r", []), [(str "d", .dir (str "d") (hexEncode dsha))])]
        (str "r") [] =
      (.ok [(str "d", .dir (str "d") (hexEncode dsha))],
        [((str "r", []), [(str "d", .dir (str "d") (hexEncode dsha))])], []) ∧
    (cacheGet (realpath dfStore
        (realpath dfStore [] (str "r") (str "d/f")).2.1
        (str "r") (str "d/f")).2.1 (str "r") []).isSome = true ∧
    realpath dfStore
        [((str "r", []), [(str "d", .dir (str "d") (hexEncode dsha))]),
         ((str "r", str "d"), [(str "f", .file (str "f") (hexEncode fsha))])]
        (str "r") (str "d/f") =
      (.ok (some (str "d/f")),
        [((str "r", []), [(str "d", .dir (str "d") (hexEncode dsha))]),
         ((str "r", str "d"), [(str "f", .file (str "f") (hexEncode fsha))])], []) :=
  ⟨c4_cache_behavior.1 dfStore [] (str "r") []
      [(str "d", .dir (str "d") (hexEncode dsha))]
      [((str "r", []), [(str "d", .dir (str "d") (hexEncode dsha))])]
      [.byRevPath (str "r") []] (by decide) (by decide),
   c4_cache_behavior.2.1 dfStore (realpath dfStore [] (str "r") (str "d/f")).2.1
      (str "r") (str "d/f") (str "r") [] (by decide),
   c4_cache_behavior.2.2 dfStore [] (str "r") (str "d/f") (some (str "d/f"))
      [((str "r", []), [(str "d", .dir (str "d") (hexEncode dsha))]),
       ((str "r", str "d"), [(str "f", .file (str "f") (hexEncode fsha))])]
      [.byRevPath (str "r") [], .byRevPath (str "r") (str "d")]
      (by decide) (by decide)⟩

/-! # Splitting, joining and `normpath` lemmas (towards claim C9) -/

theorem pySplit_ne_nil (sep : Char) : ∀ (s : Str), pySplit sep s ≠ []
  | [] => by simp [pySplit]
  | c :: cs => by
    by_cases h : c = sep
    · simp [pySplit, h]
    · rcases hs : pySplit sep cs with _ | ⟨t, ts⟩
      · simp [pySplit, h, hs]
      · simp [pySplit, h, hs]

theorem pySplit_sep_not_mem (sep : Char) :
    ∀ (s : Str), ∀ x ∈ pySplit sep s, sep ∉ x := by
  intro s
  induction s with
  | nil => intro x hx; simp [pySplit] at hx; simp [hx]
  | cons c cs ih =>
    intro x hx
    by_cases h : c = sep
    · rw [pySplit, if_pos h] at hx
      rcases List.mem_cons.mp hx with h1 | h1
      · simp [h1]
      · exact ih x h1
    · rcases hs : pySplit sep cs with _ | ⟨t, ts⟩
      · exact absurd hs (pySplit_ne_nil sep cs)
      · rw [pySplit, if_neg h, hs] at hx
        rcases List.mem_cons.mp hx with h1 | h1
        · subst h1
          intro hmem
          rcases List.mem_cons.mp hmem with h2 | h2
          · exact h h2.symm
          · exact ih t (by rw [hs]; exact List.mem_cons_self t ts) h2
        · exact ih x (by rw [hs]; exact List.mem_cons_of_mem t h1)

theorem pySplit_no_sep (sep : Char) :
    ∀ (x : Str), sep ∉ x → pySplit sep x = [x] := by
  intro x
  induction x with
  | nil => intro _; simp [pySplit]
  | cons c cs ih =>
    intro h
    simp only [List.mem_cons, not_or] at h
    rw [pySplit, if_neg (Ne.symm h.1), ih h.2]

theorem pySplit_append_sep (sep : Char) :
    ∀ (x t : Str), sep ∉ x →
      pySplit sep (x ++ sep :: t) = x :: pySplit sep t := by
  intro x
  induction x with
  | nil => intro t _; simp [pySplit]
  | cons c cs ih =>
    intro t h
    simp only [List.mem_cons, not_or] at h
    rw [List.cons_append, pySplit, if_neg (Ne.symm h.1), ih t h.2]

theorem pySplit_joinS (sep : Char) :
    ∀ (xs : List Str), xs ≠ [] → (∀ x ∈ xs, sep ∉ x) →
      pySplit sep (joinS sep xs) = xs := by
  intro xs
  induction xs with
  | nil => intro h _; exact absurd rfl h
  | cons x ys ih =>
    intro _ hsep
    rcases ys with _ | ⟨y, ys'⟩
    · rw [joinS, pySplit_no_sep sep x (hsep x (by simp))]
    · rw [joinS, pySplit_append_sep sep x _ (hsep x (by simp)),
        ih (by simp) (fun z hz => hsep z (by simp [hz]))]

theorem joinS_ne_nil (sep : Char) :
    ∀ (xs : List Str), xs ≠ [] → (∀ x ∈ xs, x ≠ []) → joinS sep xs ≠ [] := by
  intro xs
  rcases xs with _ | ⟨x, ys⟩
  · intro h _; exact absurd rfl h
  · intro _ hne
    rcases ys with _ | ⟨y, ys'⟩
    · simpa [joinS] using hne x (by simp)
    · have hx := hne x (by simp)
      rcases x with _ | ⟨c, cs⟩
      · exact absurd rfl hx
      · simp [joinS]

theorem mem_of_dropLast {α : Type} : ∀ (l : List α) (x : α), x ∈ l.dropLast → x ∈ l := by
  intro l x h
  exact (List.dropLast_sublist l).subset h

theorem foldl_normStep_elems (isl : Nat) :
    ∀ (comps : List Str) (acc : List Str),
      (∀ x ∈ acc, x ≠ [] ∧ '/' ∉ x) → (∀ x ∈ comps, '/' ∉ x) →
      ∀ x ∈ comps.foldl (normStep isl) acc, x ≠ [] ∧ '/' ∉ x := by
  intro comps
  induction comps with
  | nil => intro acc hacc _ x hx; exact hacc x hx
  | cons comp rest ih =>
    intro acc hacc hcomps x hx
    refine ih (normStep isl acc comp) ?_ (fun z hz => hcomps z (by simp [hz])) x hx
    intro z hz
    unfold normStep at hz
    split at hz
    · exact hacc z hz
    · split at hz
      · rcases List.mem_append.mp hz with h1 | h1
        · exact hacc z h1
        · simp only [List.mem_singleton] at h1
          subst h1
          refine ⟨?_, hcomps z (by simp)⟩
          intro hznil
          subst hznil
          simp at *
      · split at hz
        · exact hacc z (mem_of_dropLast acc z hz)
        · exact hacc z hz

theorem pyNormpath_nonescape_split (q : Str) (c0 : Char) (lt : Str)
    (heq : pyNormpath q = c0 :: lt) (hc0 : c0 ≠ '/') :
    ∀ x ∈ pySplit '/' (c0 :: lt), x ≠ [] := by
  by_cases hq : q = []
  · rw [pyNormpath, if_pos hq] at heq
    have h0 : c0 = '.' ∧ lt = [] := by
      constructor <;> [exact (List.cons.injEq .. ▸ heq).1.symm;
        exact (List.cons.injEq .. ▸ heq).2.symm]
    obtain ⟨h1, h2⟩ := h0
    subst h1; subst h2
    simp [pySplit]
  · rw [pyNormpath, if_neg hq] at heq
    simp only at heq
    rcases hI : (if startsW ['/'] q = true then
        if startsW (str "//") q = true ∧ ¬startsW (str "///") q = true then 2
        else 1
      else 0) with _ | n
    · rw [hI] at heq
      simp only [List.replicate, List.nil_append] at heq
      set nc := (pySplit '/' q).foldl (normStep 0) [] with hnc
      have helems : ∀ x ∈ nc, x ≠ [] ∧ '/' ∉ x := by
        rw [hnc]
        exact foldl_normStep_elems 0 (pySplit '/' q) [] (by simp)
          (pySplit_sep_not_mem '/' q)
      by_cases hpath : joinS '/' nc = []
      · rw [if_pos hpath] at heq
        have h0 : c0 = '.' ∧ lt = [] := by
          constructor <;> [exact (List.cons.injEq .. ▸ heq).1.symm;
            exact (List.cons.injEq .. ▸ heq).2.symm]
        obtain ⟨h1, h2⟩ := h0
        subst h1; subst h2
        simp [pySplit]
      · rw [if_neg hpath] at heq
        have hncne : nc ≠ [] := by
          intro h0; rw [h0] at hpath; simp [joinS] at hpath
        rw [← heq, pySplit_joinS '/' nc hncne (fun x hx => (helems x hx).2)]
        exact fun x hx => (helems x hx).1
    · exfalso
      rw [hI] at heq
      have : (List.replicate (n + 1) '/' ++
          joinS '/' ((pySplit '/' q).foldl (normStep (n + 1)) [])) =
          '/' :: (List.replicate n '/' ++
            joinS '/' ((pySplit '/' q).foldl (normStep (n + 1)) [])) := by
        simp [List.replicate]
      rw [this] at heq
      by_cases hpath : ('/' : Char) :: (List.replicate n '/' ++
          joinS '/' ((pySplit '/' q).foldl (normStep (n + 1)) [])) = []
      · simp at hpath
      · rw [if_neg hpath] at heq
        exact hc0 ((List.cons.injEq .. ▸ heq).1.symm)

/-! # Empty path components (claim C9) -/

theorem noTrail_tail {comp : Str} {rest : List Str}
    (h : NoTrailEmpty (comp :: rest)) : NoTrailEmpty rest := by
  rcases rest with _ | ⟨b, t⟩
  · simp [NoTrailEmpty]
  · unfold NoTrailEmpty at *
    rwa [List.getLast?_cons_cons] at h

theorem noTrail_empty_head {rest : List Str}
    (h : NoTrailEmpty ([] :: rest)) : rest ≠ [] := by
  intro h0
  subst h0
  simp [NoTrailEmpty] at h

theorem mem_of_getLast? {α : Type} :
    ∀ (l : List α) (x : α), l.getLast? = some x → x ∈ l := by
  intro l
  induction l with
  | nil => intro x h; simp at h
  | cons a t ih =>
    intro x h
    rcases t with _ | ⟨b, t'⟩
    · simp only [List.getLast?_singleton, Option.some.injEq] at h
      simp [h]
    · rw [List.getLast?_cons_cons] at h
      exact List.mem_cons_of_mem a (ih x h)

theorem getLast?_append_right {α : Type} :
    ∀ (a : List α) {b : List α}, b ≠ [] →
      (a ++ b).getLast? = b.getLast? := by
  intro a
  induction a with
  | nil => intro b _; rfl
  | cons x t ih =>
    intro b h
    rw [List.cons_append]
    have htb : t ++ b ≠ [] := by
      intro h0
      exact h (List.append_eq_nil.mp h0).2
    rcases hc : t ++ b with _ | ⟨y, ys⟩
    · exact absurd hc htb
    · rw [List.getLast?_cons_cons, ← hc, ih h]

theorem dropEmpties_cons_empty (l : List Str) :
    dropEmpties ([] :: l) = dropEmpties l := by
  simp [dropEmpties]

theorem dropEmpties_cons_ne (x : Str) (l : List Str) (h : x ≠ []) :
    dropEmpties (x :: l) = x :: dropEmpties l := by
  simp [dropEmpties, List.filter_cons, List.isEmpty_iff, h]

theorem dropEmpties_append (a b : List Str) :
    dropEmpties (a ++ b) = dropEmpties a ++ dropEmpties b := by
  simp [dropEmpties, List.filter_append]

theorem dropEmpties_eq_self {l : List Str} (h : ∀ x ∈ l, x ≠ []) :
    dropEmpties l = l := by
  unfold dropEmpties
  rw [List.filter_eq_self]
  intro x hx
  simp [List.isEmpty_iff]
  exact h x hx

theorem dropEmpties_nil_iff {rest : List Str} (h : NoTrailEmpty rest) :
    dropEmpties rest = [] ↔ rest = [] := by
  constructor
  · intro h0
    rcases hrest : rest with _ | ⟨a, t⟩
    · rfl
    · exfalso
      subst hrest
      have hall : ∀ x ∈ a :: t, x = [] := by
        intro x hx
        by_contra hne
        have hmem : x ∈ dropEmpties (a :: t) := by
          unfold dropEmpties
          rw [List.mem_filter]
          refine ⟨hx, ?_⟩
          simp [List.isEmpty_iff]
          exact hne
        rw [h0] at hmem
        simp at hmem

      rcases hy : (a :: t).getLast? with _ | y
      · simp at hy
      · have hmem := mem_of_getLast? _ _ hy
        have hynil : y = [] := hall y hmem
        exact h (by rw [hy, hynil])
  · intro h0; subst h0; rfl

theorem walk_dropEmpties (s : Store) (rev rp1 rp2 : Str) :
    ∀ (comps : List Str) (ps : Str) (c : Cache),
      NoTrailEmpty comps →
      ((∃ r1 r2 c' l,
          walk s rev rp1 comps ps c = (.final r1, c', l) ∧
          walk s rev rp2 (dropEmpties comps) ps c = (.final r2, c', l) ∧
          ResultRel r1 r2) ∨
       (∃ pp sha rest c' l,
          walk s rev rp1 comps ps c = (.symlinkHit pp sha rest, c', l) ∧
          walk s rev rp2 (dropEmpties comps) ps c =
            (.symlinkHit pp sha (dropEmpties rest), c', l) ∧
          NoTrailEmpty rest)) := by
  intro comps
  induction comps with
  | nil =>
    intro ps c _
    left
    exact ⟨.ok none, .ok none, c, [], by simp [walk, dropEmpties],
      by simp [walk, dropEmpties], .inl ⟨none, rfl, rfl⟩⟩
  | cons comp rest ih =>
    intro ps c hnt
    have hnt' : NoTrailEmpty rest := noTrail_tail hnt
    by_cases hcomp : comp = []
    · subst hcomp
      have hwalk : walk s rev rp1 ([] :: rest) ps c = walk s rev rp1 rest ps c := by
        simp [walk]
      rw [hwalk, dropEmpties_cons_empty]
      exact ih ps c hnt'
    · have hde : dropEmpties (comp :: rest) = comp :: dropEmpties rest :=
        dropEmpties_cons_ne comp rest hcomp
      rcases hrt : readTree s c rev ps with ⟨rt, c2, l2⟩
      rcases rt with e | t
      · left
        refine ⟨.error e, .error e, c2, l2, by simp [walk, hcomp, hrt], ?_,
          .inr ⟨e, e, rfl, rfl, rfl⟩⟩
        rw [hde]
        simp [walk, hcomp, hrt]
      · rcases hget : treeGet t comp with _ | e
        · left
          refine ⟨.error (.missingFile (some rev) (some rp1)),
            .error (.missingFile (some rev) (some rp2)), c2, l2,
            by simp [walk, hcomp, hrt, hget], ?_, .inr ⟨_, _, rfl, rfl, rfl⟩⟩
          rw [hde]
          simp [walk, hcomp, hrt, hget]
        · rcases e with ⟨n, sha⟩ | ⟨n, sha⟩ | ⟨n, sha⟩
          · -- symlink entry
            right
            refine ⟨ps, sha, rest, c2, l2, by simp [walk, hcomp, hrt, hget], ?_, hnt'⟩
            rw [hde]
            simp [walk, hcomp, hrt, hget]
          · -- directory entry
            by_cases hrest : rest = []
            · subst hrest
              left
              refine ⟨.ok (some ((if ps ≠ [] then ps ++ ['/'] else []) ++ comp ++ ['/'])),
                .ok (some ((if ps ≠ [] then ps ++ ['/'] else []) ++ comp ++ ['/'])),
                c2, l2, by simp [walk, hcomp, hrt, hget], ?_, .inl ⟨_, rfl, rfl⟩⟩
              rw [hde]
              simp [walk, hcomp, hrt, hget, dropEmpties]
            · have hde_ne : dropEmpties rest ≠ [] := by
                intro h0
                exact hrest ((dropEmpties_nil_iff hnt').mp h0)
              rcases ih ((if ps = [] then [] else ps ++ ['/']) ++ comp) c2 hnt' with
                ⟨r1, r2, c', l, h1, h2, hrel⟩ | ⟨pp, sha', rest', c', l, h1, h2, hnt''⟩
              · left
                refine ⟨r1, r2, c', l2 ++ l, ?_, ?_, hrel⟩
                · simp [walk, hcomp, hrt, hget, hrest, h1]
                · rw [hde]
                  simp [walk, hcomp, hrt, hget, hde_ne, h2]
              · right
                refine ⟨pp, sha', rest', c', l2 ++ l, ?_, ?_, hnt''⟩
                · simp [walk, hcomp, hrt, hget, hrest, h1]
                · rw [hde]
                  simp [walk, hcomp, hrt, hget, hde_ne, h2]
          · -- file entry
            by_cases hrest : rest = []
            · subst hrest
              left
              refine ⟨.ok (some ((if ps ≠ [] then ps ++ ['/'] else []) ++ comp)),
                .ok (some ((if ps ≠ [] then ps ++ ['/'] else []) ++ comp)),
                c2, l2, by simp [walk, hcomp, hrt, hget], ?_, .inl ⟨_, rfl, rfl⟩⟩
              rw [hde]
              simp [walk, hcomp, hrt, hget, dropEmpties]
            · have hde_ne : dropEmpties rest ≠ [] := by
                intro h0
                exact hrest ((dropEmpties_nil_iff hnt').mp h0)
              left
              refine ⟨.error (.notADir rev rp1), .error (.notADir rev rp2), c2, l2,
                by simp [walk, hcomp, hrt, hget, hrest], ?_,
                .inr ⟨_, _, rfl, rfl, rfl⟩⟩
              rw [hde]
              simp [walk, hcomp, hrt, hget, hde_ne]

theorem resolveLoop_dropEmpties (s : Store) (rev rp1 rp2 : Str) :
    ∀ (hops : Nat) (comps : List Str) (ps : Str) (c : Cache),
      NoTrailEmpty comps →
      ∃ r1 r2 c' l,
        resolveLoop s rev rp1 hops comps ps c = (r1, c', l) ∧
        resolveLoop s rev rp2 hops (dropEmpties comps) ps c = (r2, c', l) ∧
        ResultRel r1 r2 := by
  intro hops
  induction hops with
  | zero =>
    intro comps ps c hnt
    rcases walk_dropEmpties s rev rp1 rp2 comps ps c hnt with
      ⟨r1, r2, c', l, h1, h2, hrel⟩ | ⟨pp, sha, rest, c', l, h1, h2, _⟩
    · exact ⟨r1, r2, c', l, by rw [resolveLoop, h1], by rw [resolveLoop, h2], hrel⟩
    · exact ⟨.error (.symlinkLoop rev rp1), .error (.symlinkLoop rev rp2), c', l,
        by rw [resolveLoop, h1], by rw [resolveLoop, h2],
        .inr ⟨_, _, rfl, rfl, rfl⟩⟩
  | succ hops ih =>
    intro comps ps c hnt
    rcases walk_dropEmpties s rev rp1 rp2 comps ps c hnt with
      ⟨r1, r2, c', l, h1, h2, hrel⟩ | ⟨pp, sha, rest, c', l, h1, h2, hnt'⟩
    · exact ⟨r1, r2, c', l, by rw [resolveLoop, h1], by rw [resolveLoop, h2], hrel⟩
    · rcases hro : readObject s (.bySha sha) with e | ⟨ot, pd⟩
      · exact ⟨.error e, .error e, c', l ++ [.bySha sha],
          by rw [resolveLoop, h1]; simp [hro],
          by rw [resolveLoop, h2]; simp [hro], .inr ⟨e, e, rfl, rfl, rfl⟩⟩
      · by_cases hot : ot ≠ str "blob"
        · exact ⟨.error .assertFailed, .error .assertFailed, c', l ++ [.bySha sha],
            by rw [resolveLoop, h1]; simp [hro, hot],
            by rw [resolveLoop, h2]; simp [hro, hot],
            .inr ⟨_, _, rfl, rfl, rfl⟩⟩
        · by_cases hesc : startsW (str "../") (pyNormpath (pyJoin pp pd))
          · exact ⟨.ok (some (pyNormpath (pyJoin pp pd))),
              .ok (some (pyNormpath (pyJoin pp pd))), c', l ++ [.bySha sha],
              by rw [resolveLoop, h1]; simp [hro, hot, hesc],
              by rw [resolveLoop, h2]; simp [hro, hot, hesc],
              .inl ⟨_, rfl, rfl⟩⟩
          · rcases hlt : pyNormpath (pyJoin pp pd) with _ | ⟨c0, lt⟩
            · rw [hlt] at hesc
              exact ⟨.error .indexError, .error .indexError, c', l ++ [.bySha sha],
                by rw [resolveLoop, h1]; simp [hro, hot, hlt, hesc],
                by rw [resolveLoop, h2]; simp [hro, hot, hlt, hesc],
                .inr ⟨_, _, rfl, rfl, rfl⟩⟩
            · rw [hlt] at hesc
              by_cases hc0 : c0 = '/'
              · exact ⟨.ok (some (c0 :: lt)), .ok (some (c0 :: lt)), c',
                  l ++ [.bySha sha],
                  by rw [resolveLoop, h1]; simp [hro, hot, hlt, hesc, hc0],
                  by rw [resolveLoop, h2]; simp [hro, hot, hlt, hesc, hc0],
                  .inl ⟨_, rfl, rfl⟩⟩
              · have hsplit_ne : ∀ x ∈ pySplit '/' (c0 :: lt), x ≠ [] :=
                  pyNormpath_nonescape_split (pyJoin pp pd) c0 lt hlt hc0
                have hde_splice : dropEmpties (pySplit '/' (c0 :: lt) ++ rest) =
                    pySplit '/' (c0 :: lt) ++ dropEmpties rest := by
                  rw [dropEmpties_append, dropEmpties_eq_self hsplit_ne]
                have hnt_splice : NoTrailEmpty (pySplit '/' (c0 :: lt) ++ rest) := by
                  rcases hr1 : rest with _ | ⟨a, t⟩
                  · rw [List.append_nil]
                    unfold NoTrailEmpty
                    intro h0
                    exact hsplit_ne [] (mem_of_getLast? _ _ h0) rfl
                  · unfold NoTrailEmpty
                    rw [getLast?_append_right _ (by simp)]
                    rw [hr1] at hnt'
                    exact hnt'
                rcases ih (pySplit '/' (c0 :: lt) ++ rest) [] c' hnt_splice with
                  ⟨r1, r2, c'', l', hh1, hh2, hrel⟩
                rw [hde_splice] at hh2
                refine ⟨r1, r2, c'', l ++ [.bySha sha] ++ l', ?_, ?_, hrel⟩
                · rw [resolveLoop, h1]; simp [hro, hot, hlt, hesc, hc0, hh1]
                · rw [resolveLoop, h2]; simp [hro, hot, hlt, hesc, hc0, hh2]

/-- C9 (amended): `_realpath` skips empty path components that are
followed by a later nonempty component; a path with no trailing separator
resolves like the same path with its empty components removed — same
CanonicalPath on success, same exception class on failure. Trailing
separators are excluded: per the counterexample, `f/` fails
`NotADirException` while `f` succeeds (and a path of a bare directory
name plus `/` falls off the loop and returns no CanonicalPath). -/
theorem c9_empty_components (s : Store) (c : Cache) (rev p : Str)
    (hnt : NoTrailEmpty (pySplit '/' p)) (hp : p ≠ str ".")
    (hp2 : joinS '/' (dropEmpties (pySplit '/' p)) ≠ str ".") :
    ResultRel (realpath s c rev p).1
      (realpath s c rev (joinS '/' (dropEmpties (pySplit '/' p)))).1 := by
  have hpne : p ≠ [] := by
    intro h0
    subst h0
    simp [pySplit, NoTrailEmpty] at hnt
  have hde_ne : dropEmpties (pySplit '/' p) ≠ [] := by
    intro h0
    exact pySplit_ne_nil '/' p ((dropEmpties_nil_iff hnt).mp h0)
  have helems : ∀ x ∈ dropEmpties (pySplit '/' p), x ≠ [] := by
    intro x hx
    unfold dropEmpties at hx
    have h0 := List.of_mem_filter hx
    simpa [List.isEmpty_iff] using h0
  have hstr_ne : joinS '/' (dropEmpties (pySplit '/' p)) ≠ [] :=
    joinS_ne_nil '/' _ hde_ne helems
  have hsepfree : ∀ x ∈ dropEmpties (pySplit '/' p), '/' ∉ x := by
    intro x hx
    unfold dropEmpties at hx
    exact pySplit_sep_not_mem '/' p x (List.mem_of_mem_filter hx)
  have hsplit2 : pySplit '/' (joinS '/' (dropEmpties (pySplit '/' p))) =
      dropEmpties (pySplit '/' p) :=
    pySplit_joinS '/' _ hde_ne hsepfree
  obtain ⟨r1, r2, c', l, h1, h2, hrel⟩ :=
    resolveLoop_dropEmpties s rev p (joinS '/' (dropEmpties (pySplit '/' p)))
      40 (pySplit '/' p) [] c hnt
  have e1 : (realpath s c rev p).1 = r1 := by
    rw [realpath, if_neg (by push_neg; exact ⟨hp, hpne⟩), h1]
  have e2 : (realpath s c rev (joinS '/' (dropEmpties (pySplit '/' p)))).1 = r2 := by
    rw [realpath, if_neg (by push_neg; exact ⟨hp2, hstr_ne⟩), hsplit2, h2]
  rw [e1, e2]
  exact hrel

/-- Witness for C9: in the `d/f` fixture, `d//f` (a repeated interior
separator) resolves with the same outcome as `d/f`. -/
theorem c9_empty_components_witness :
    NoTrailEmpty (pySplit '/' (str "d//f")) ∧
    ResultRel (realpath dfStore [] (str "r") (str "d//f")).1
      (realpath dfStore [] (str "r")
        (joinS '/' (dropEmpties (pySplit '/' (str "d//f"))))).1 :=
  ⟨by decide, c9_empty_components dfStore [] (str "r") (str "d//f")
    (by decide) (by decide) (by decide)⟩

end Pants